import Mathlib

/-!
Verification of the cohort / growth-accounting engine of myrthings/giraffe-startups.

The development is organised in three layers, mirroring the repository:

* a calendar layer modelling Python's `datetime.date` (proleptic Gregorian
  ordinals, ISO calendar) together with `aux.custom_representative`;
* the growth-accounting pipeline of `growth_accounting_pmf.GrowthAccounting.fit`;
* the cohort-grid pipeline of `cohorts_pmf.Cohorts.fit` and its metric methods.

Pandas frames are embedded as lists of rows; float `NaN`/`inf` propagation in
the derived-rate columns is modelled by the `FVal` type below.
-/

/- `Rat`'s arithmetic is `@[irreducible]` in Batteries, which blocks `decide`
on concrete rational computations; restore the default reducibility. -/
attribute [local semireducible] Rat.add Rat.sub Rat.mul Rat.inv

/-! ## Calendar layer: Python `datetime.date` -/

/-- A calendar date (proleptic Gregorian), modelling Python's `datetime.date`
triple of fields. -/
structure Date where
  year : Nat
  month : Nat
  day : Nat
deriving DecidableEq, Repr

/-- `datetime._is_leap`: Gregorian leap-year predicate. -/
def isLeap (y : Nat) : Prop := y % 4 = 0 ∧ (y % 100 ≠ 0 ∨ y % 400 = 0)

instance (y : Nat) : Decidable (isLeap y) := by unfold isLeap; infer_instance

/-- `datetime._DAYS_BEFORE_MONTH`: days in a non-leap year before month `m`. -/
def daysBeforeMonth (m : Nat) : Nat :=
  if m = 1 then 0 else if m = 2 then 31 else if m = 3 then 59
  else if m = 4 then 90 else if m = 5 then 120 else if m = 6 then 151
  else if m = 7 then 181 else if m = 8 then 212 else if m = 9 then 243
  else if m = 10 then 273 else if m = 11 then 304 else if m = 12 then 334
  else 0

/-- `datetime._DAYS_IN_MONTH`: length of month `m` in a non-leap year. -/
def daysInMonthT (m : Nat) : Nat :=
  if m = 2 then 28 else if m = 4 ∨ m = 6 ∨ m = 9 ∨ m = 11 then 30
  else if 1 ≤ m ∧ m ≤ 12 then 31 else 0

/-- `datetime._days_in_month`: length of month `m` of year `y`. -/
def daysInMonth (y m : Nat) : Nat :=
  daysInMonthT m + (if m = 2 ∧ isLeap y then 1 else 0)

/-- `datetime._days_before_year`: days between year 1 and year `y`. -/
def daysBeforeYear (y : Nat) : Nat :=
  (y - 1) * 365 + (y - 1) / 4 - (y - 1) / 100 + (y - 1) / 400

/-- `datetime._ymd2ord`: proleptic-Gregorian ordinal of a date;
`toRd ⟨1,1,1⟩ = 1`. -/
def toRd (x : Date) : Nat :=
  daysBeforeYear x.year + daysBeforeMonth x.month +
    (if 2 < x.month ∧ isLeap x.year then 1 else 0) + x.day

/-- `datetime._ord2ymd`: the date with a given proleptic-Gregorian ordinal
(CPython's 400/100/4/1-year decomposition with its month estimate and
correction step). -/
def civilFromRd (nn : Nat) : Date :=
  let n400 := (nn - 1) / 146097
  let n := (nn - 1) % 146097
  let n100 := n / 36524
  let n2 := n % 36524
  let n4 := n2 / 1461
  let n3 := n2 % 1461
  let n1 := n3 / 365
  let nr := n3 % 365
  let year := n400 * 400 + 1 + n100 * 100 + n4 * 4 + n1
  if n1 = 4 ∨ n100 = 4 then ⟨year - 1, 12, 31⟩
  else
    let month := (nr + 50) / 32
    let preceding := daysBeforeMonth month +
      (if 2 < month ∧ isLeap year then 1 else 0)
    if nr < preceding then
      ⟨year, month - 1, nr + 1 + (daysInMonthT (month - 1) +
        (if month - 1 = 2 ∧ isLeap year then 1 else 0)) - preceding⟩
    else
      ⟨year, month, nr - preceding + 1⟩

/-- A date is valid when Python's `datetime.date` constructor accepts it. -/
def Date.Valid (x : Date) : Prop :=
  1 ≤ x.year ∧ x.year ≤ 9999 ∧ 1 ≤ x.month ∧ x.month ≤ 12 ∧
    1 ≤ x.day ∧ x.day ≤ daysInMonth x.year x.month

instance (x : Date) : Decidable x.Valid := by unfold Date.Valid; infer_instance

/-! ### Arithmetic facts about the ordinal conversions -/

set_option maxHeartbeats 1000000 in
/-- A Gregorian year has 365 days, or 366 when leap. -/
theorem yearLength (y : Nat) (h : 1 ≤ y) :
    daysBeforeYear (y + 1) =
      daysBeforeYear y + 365 + (if isLeap y then 1 else 0) := by
  unfold daysBeforeYear isLeap
  split_ifs with hl
  · rcases hl with ⟨h4, h100 | h400⟩
    · omega
    · omega
  · rw [Classical.not_and_iff_or_not_not] at hl
    rcases hl with h4 | hl
    · omega
    · rw [not_or] at hl
      omega

theorem yearGap (y : Nat) (h : 1 ≤ y) :
    daysBeforeYear y + 365 ≤ daysBeforeYear (y + 1) ∧
      daysBeforeYear (y + 1) ≤ daysBeforeYear y + 366 := by
  rw [yearLength y h]
  split_ifs <;> omega

theorem daysBeforeYear_mono (a b : Nat) (h1 : 1 ≤ a) (h : a ≤ b) :
    daysBeforeYear a + 365 * (b - a) ≤ daysBeforeYear b := by
  induction b with
  | zero => omega
  | succ n ih =>
    rcases Nat.lt_or_ge n (a) with hn | hn
    · have ha : a = n + 1 := by omega
      subst ha
      omega
    · have h1n : 1 ≤ n := by omega
      have := yearGap n h1n
      have := ih (by omega)
      omega

set_option maxRecDepth 10000 in
/-- CPython `_ord2ymd` month-estimate step: correction branch, leap year. -/
theorem ord2ymdA : ∀ nr : Nat, nr < 365 →
    nr < daysBeforeMonth ((nr + 50) / 32) +
        (if 2 < (nr + 50) / 32 then 1 else 0) →
    daysBeforeMonth ((nr + 50) / 32 - 1) +
        (if 2 < (nr + 50) / 32 - 1 then 1 else 0) +
        (nr + 1 + (daysInMonthT ((nr + 50) / 32 - 1) +
          (if (nr + 50) / 32 - 1 = 2 then 1 else 0)) -
          (daysBeforeMonth ((nr + 50) / 32) +
            (if 2 < (nr + 50) / 32 then 1 else 0))) = nr + 1 := by decide

set_option maxRecDepth 10000 in
/-- CPython `_ord2ymd` month-estimate step: direct branch, leap year. -/
theorem ord2ymdB : ∀ nr : Nat, nr < 365 →
    ¬ (nr < daysBeforeMonth ((nr + 50) / 32) +
        (if 2 < (nr + 50) / 32 then 1 else 0)) →
    daysBeforeMonth ((nr + 50) / 32) +
        (if 2 < (nr + 50) / 32 then 1 else 0) +
        (nr - (daysBeforeMonth ((nr + 50) / 32) +
          (if 2 < (nr + 50) / 32 then 1 else 0)) + 1) = nr + 1 := by decide

set_option maxRecDepth 10000 in
/-- CPython `_ord2ymd` month-estimate step: correction branch, common year. -/
theorem ord2ymdC : ∀ nr : Nat, nr < 365 →
    nr < daysBeforeMonth ((nr + 50) / 32) →
    daysBeforeMonth ((nr + 50) / 32 - 1) +
        (nr + 1 + daysInMonthT ((nr + 50) / 32 - 1) -
          daysBeforeMonth ((nr + 50) / 32)) = nr + 1 := by decide

set_option maxRecDepth 10000 in
/-- CPython `_ord2ymd` month-estimate step: direct branch, common year. -/
theorem ord2ymdD : ∀ nr : Nat, nr < 365 →
    ¬ (nr < daysBeforeMonth ((nr + 50) / 32)) →
    daysBeforeMonth ((nr + 50) / 32) +
        (nr - daysBeforeMonth ((nr + 50) / 32) + 1) = nr + 1 := by decide

set_option maxHeartbeats 1000000 in
/-- The month-estimate part of `_ord2ymd`, for a day offset `nr` into year `Y`. -/
theorem ord2ymdMain (nn Y nr : Nat) (hnr : nr < 365) (h1y : 1 ≤ Y)
    (hnn : nn = daysBeforeYear Y + nr + 1) :
    ∃ y m d,
      (if nr < daysBeforeMonth ((nr + 50) / 32) +
          (if 2 < (nr + 50) / 32 ∧ isLeap Y then 1 else 0) then
        (⟨Y, (nr + 50) / 32 - 1, nr + 1 + (daysInMonthT ((nr + 50) / 32 - 1) +
          (if (nr + 50) / 32 - 1 = 2 ∧ isLeap Y then 1 else 0)) -
          (daysBeforeMonth ((nr + 50) / 32) +
            (if 2 < (nr + 50) / 32 ∧ isLeap Y then 1 else 0))⟩ : Date)
      else ⟨Y, (nr + 50) / 32, nr - (daysBeforeMonth ((nr + 50) / 32) +
          (if 2 < (nr + 50) / 32 ∧ isLeap Y then 1 else 0)) + 1⟩) = ⟨y, m, d⟩ ∧
      toRd ⟨y, m, d⟩ = nn ∧ 1 ≤ y ∧
      daysBeforeYear y + 1 ≤ nn ∧ nn < daysBeforeYear (y + 1) + 1 := by
  have hupper : nn < daysBeforeYear (Y + 1) + 1 := by
    rw [yearLength Y h1y]
    split_ifs <;> omega
  by_cases hP : isLeap Y
  · by_cases hc : nr < daysBeforeMonth ((nr + 50) / 32) +
        (if 2 < (nr + 50) / 32 ∧ isLeap Y then 1 else 0)
    · rw [if_pos hc]
      refine ⟨_, _, _, rfl, ?_, by omega, by omega, hupper⟩
      unfold toRd
      dsimp only
      simp only [hP, and_true] at hc ⊢
      have := ord2ymdA nr hnr hc
      omega
    · rw [if_neg hc]
      refine ⟨_, _, _, rfl, ?_, by omega, by omega, hupper⟩
      unfold toRd
      dsimp only
      simp only [hP, and_true] at hc ⊢
      have := ord2ymdB nr hnr hc
      omega
  · by_cases hc : nr < daysBeforeMonth ((nr + 50) / 32) +
        (if 2 < (nr + 50) / 32 ∧ isLeap Y then 1 else 0)
    · rw [if_pos hc]
      refine ⟨_, _, _, rfl, ?_, by omega, by omega, hupper⟩
      unfold toRd
      dsimp only
      simp only [hP, and_false, if_false, add_zero] at hc ⊢
      have := ord2ymdC nr hnr hc
      omega
    · rw [if_neg hc]
      refine ⟨_, _, _, rfl, ?_, by omega, by omega, hupper⟩
      unfold toRd
      dsimp only
      simp only [hP, and_false, if_false, add_zero] at hc ⊢
      have := ord2ymdD nr hnr hc
      omega

set_option maxHeartbeats 4000000 in
/-- `_ord2ymd` inverts `_ymd2ord`, and the resulting date lies inside its own
calendar year. -/
theorem civilFromRd_spec (nn : Nat) (h : 1 ≤ nn) :
    ∃ y m d, civilFromRd nn = ⟨y, m, d⟩ ∧ toRd ⟨y, m, d⟩ = nn ∧ 1 ≤ y ∧
      daysBeforeYear y + 1 ≤ nn ∧ nn < daysBeforeYear (y + 1) + 1 := by
  unfold civilFromRd
  dsimp only
  set n400 := (nn - 1) / 146097 with hn400
  set n := (nn - 1) % 146097 with hn
  set n100 := n / 36524 with hn100
  set n2 := n % 36524 with hn2
  set n4 := n2 / 1461 with hn4
  set n3 := n2 % 1461 with hn3
  set n1 := n3 / 365 with hn1
  set nr := n3 % 365 with hnr
  have e0 : nn - 1 = 146097 * n400 + n ∧ n < 146097 := by omega
  have e1 : n = 36524 * n100 + n2 ∧ n2 < 36524 := by omega
  have e2 : n2 = 1461 * n4 + n3 ∧ n3 < 1461 := by omega
  have e3 : n3 = 365 * n1 + nr ∧ nr < 365 := by omega
  clear_value n400 n n100 n2 n4 n3 n1 nr
  by_cases hsp : n1 = 4 ∨ n100 = 4
  · rw [if_pos hsp]
    have hleap : isLeap (n400 * 400 + 1 + n100 * 100 + n4 * 4 + n1 - 1) := by
      unfold isLeap
      rcases hsp with h5 | h5
      · exact ⟨by omega, Or.inl (by omega)⟩
      · exact ⟨by omega, Or.inr (by omega)⟩
    have hdBY : daysBeforeYear (n400 * 400 + 1 + n100 * 100 + n4 * 4 + n1 - 1)
        + 366 = nn := by
      unfold daysBeforeYear
      rcases hsp with h5 | h5
      · have hX : n400 * 400 + 1 + n100 * 100 + n4 * 4 + n1 - 1 - 1
            = 400 * n400 + 100 * n100 + 4 * n4 + 3 := by omega
        rw [hX]
        have d4 : (400 * n400 + 100 * n100 + 4 * n4 + 3) / 4
            = 100 * n400 + 25 * n100 + n4 := by omega
        have d100 : (400 * n400 + 100 * n100 + 4 * n4 + 3) / 100
            = 4 * n400 + n100 := by omega
        have d400 : (400 * n400 + 100 * n100 + 4 * n4 + 3) / 400 = n400 := by
          omega
        rw [d4, d100, d400]
        omega
      · have hz : n2 = 0 ∧ n4 = 0 ∧ n3 = 0 ∧ n1 = 0 ∧ nr = 0 := by omega
        have hX : n400 * 400 + 1 + n100 * 100 + n4 * 4 + n1 - 1 - 1
            = 400 * n400 + 399 := by omega
        rw [hX]
        have d4 : (400 * n400 + 399) / 4 = 100 * n400 + 99 := by omega
        have d100 : (400 * n400 + 399) / 100 = 4 * n400 + 3 := by omega
        have d400 : (400 * n400 + 399) / 400 = n400 := by omega
        rw [d4, d100, d400]
        omega
    have hup : daysBeforeYear (n400 * 400 + 1 + n100 * 100 + n4 * 4 + n1 - 1 + 1)
        = nn := by
      rw [yearLength _ (by omega), if_pos hleap]
      omega
    refine ⟨_, 12, 31, rfl, ?_, by omega, ?_, ?_⟩
    · unfold toRd
      dsimp only
      rw [show daysBeforeMonth 12 = 334 from rfl, if_pos ⟨by omega, hleap⟩]
      omega
    · omega
    · rw [hup]
      omega
  · rw [if_neg hsp]
    rw [not_or] at hsp
    have hn13 : n1 ≤ 3 := by omega
    have hn1003 : n100 ≤ 3 := by omega
    have hn424 : n4 ≤ 24 := by omega
    have hX : n400 * 400 + 1 + n100 * 100 + n4 * 4 + n1 - 1
        = 400 * n400 + 100 * n100 + 4 * n4 + n1 := by omega
    have d4 : (400 * n400 + 100 * n100 + 4 * n4 + n1) / 4
        = 100 * n400 + 25 * n100 + n4 := by omega
    have d100 : (400 * n400 + 100 * n100 + 4 * n4 + n1) / 100
        = 4 * n400 + n100 := by omega
    have d400 : (400 * n400 + 100 * n100 + 4 * n4 + n1) / 400 = n400 := by omega
    have hdBY : daysBeforeYear (n400 * 400 + 1 + n100 * 100 + n4 * 4 + n1)
        = 146097 * n400 + 36524 * n100 + 1461 * n4 + 365 * n1 := by
      unfold daysBeforeYear
      rw [hX, d4, d100, d400]
      omega
    exact ord2ymdMain nn (n400 * 400 + 1 + n100 * 100 + n4 * 4 + n1) nr
      (by omega) (by omega) (by rw [hdBY]; omega)

/-! ### ISO calendar (CPython `datetime`) -/

/-- CPython `datetime._isoweek1monday`: ordinal of the Monday of ISO week 1 of
`year` (the week containing the first Thursday of the year). -/
def isoweek1monday (year : Nat) : Nat :=
  let firstday := toRd ⟨year, 1, 1⟩
  let firstweekday := (firstday + 6) % 7
  let week1monday := firstday - firstweekday
  if 3 < firstweekday then week1monday + 7 else week1monday

/-- CPython `datetime.date.isocalendar`: the (ISO year, ISO week, ISO weekday)
triple of a date. -/
def Date.isocalendar (dt : Date) : Nat × Nat × Nat :=
  let year := dt.year
  let today := toRd dt
  let w1 := isoweek1monday year
  if today < w1 then
    let w1p := isoweek1monday (year - 1)
    (year - 1, (today - w1p) / 7 + 1, (today - w1p) % 7 + 1)
  else
    let week := (today - w1) / 7
    if 52 ≤ week ∧ isoweek1monday (year + 1) ≤ today then
      (year + 1, 1, (today - w1) % 7 + 1)
    else
      (year, week + 1, (today - w1) % 7 + 1)

/-- CPython `_isoweek_to_gregorian` (used by `strptime` for `%G %V %u`):
the date of weekday `d` of ISO week `w` of ISO year `y`. -/
def fromIsoCalendar (y w d : Nat) : Date :=
  civilFromRd (isoweek1monday y + 7 * (w - 1) + (d - 1))

/-- `aux.custom_representative`: canonical representative date of the period
bucket containing `date`, for period tag `tipo`.  Unknown tags fall off the
end of the `if`/`elif` chain and return Python `None`. -/
def custom_representative (tipo : String) (date : Date) : Option Date :=
  if tipo = "7d" then
    some (fromIsoCalendar date.isocalendar.1 date.isocalendar.2.1 1)
  else if tipo = "28d" then
    some (fromIsoCalendar date.isocalendar.1
      (if date.isocalendar.2.1 / 4 ≠ 0 then date.isocalendar.2.1 / 4 * 4 else 1) 1)
  else if tipo = "m" then some ⟨date.year, date.month, 1⟩
  else if tipo = "d" then some date
  else if tipo = "q" then
    some ⟨date.year, if date.month / 3 ≠ 0 then date.month / 3 * 3 else 1, 1⟩
  else none


theorem toRd_jan1 (y : Nat) : toRd ⟨y, 1, 1⟩ = daysBeforeYear y + 1 := by
  unfold toRd
  dsimp only
  rw [show daysBeforeMonth 1 = 0 from rfl,
    if_neg (fun hx => absurd hx.1 (by decide))]

set_option maxHeartbeats 1000000 in
/-- `_isoweek1monday` returns a Monday within three days of January 1. -/
theorem isoweek1monday_facts (y : Nat) (hy : 1 ≤ y) :
    isoweek1monday y % 7 = 1 ∧
    daysBeforeYear y + 1 ≤ isoweek1monday y + 3 ∧
    isoweek1monday y ≤ daysBeforeYear y + 4 ∧
    1 ≤ isoweek1monday y := by
  unfold isoweek1monday
  dsimp only
  rw [toRd_jan1]
  split_ifs with h3 <;> omega

theorem isoweek1monday_gap (y : Nat) (hy : 1 ≤ y) :
    isoweek1monday y + 364 ≤ isoweek1monday (y + 1) ∧
    isoweek1monday (y + 1) ≤ isoweek1monday y + 371 ∧
    (isoweek1monday (y + 1) - isoweek1monday y) % 7 = 0 := by
  have a := isoweek1monday_facts y hy
  have b := isoweek1monday_facts (y + 1) (by omega)
  have c := yearGap y hy
  omega

set_option maxRecDepth 10000 in
theorem monthSpanBounds : ∀ m : Nat, 1 ≤ m → m ≤ 12 →
    daysBeforeMonth m + daysInMonthT m ≤ 365 ∧
    daysBeforeMonth m + (if 2 < m then 1 else 0) +
      (daysInMonthT m + (if m = 2 then 1 else 0)) ≤ 366 := by decide

/-- A valid date's ordinal lies in its calendar year's range of ordinals. -/
theorem valid_straddle (x : Date) (h : x.Valid) :
    daysBeforeYear x.year + 1 ≤ toRd x ∧
      toRd x < daysBeforeYear (x.year + 1) + 1 := by
  obtain ⟨h1, h2, h3, h4, h5, h6⟩ := h
  unfold daysInMonth at h6
  have hb := monthSpanBounds x.month h3 h4
  unfold toRd
  rw [yearLength _ h1]
  by_cases hL : isLeap x.year
  · rw [if_pos hL]
    simp only [hL, and_true] at h6 ⊢
    omega
  · rw [if_neg hL]
    simp only [hL, and_false, if_false] at h6 ⊢
    omega

set_option maxHeartbeats 1000000 in
/-- Specification of `date.isocalendar`: the result names the Monday-aligned
ISO week that actually contains the date. -/
theorem isocalendar_spec (x : Date) (h1y : 1 ≤ x.year)
    (hlo : daysBeforeYear x.year + 1 ≤ toRd x)
    (hhi : toRd x < daysBeforeYear (x.year + 1) + 1) :
    1 ≤ x.isocalendar.1 ∧ 1 ≤ x.isocalendar.2.1 ∧
    1 ≤ x.isocalendar.2.2 ∧ x.isocalendar.2.2 ≤ 7 ∧
    toRd x = isoweek1monday x.isocalendar.1 + 7 * (x.isocalendar.2.1 - 1)
      + (x.isocalendar.2.2 - 1) ∧
    isoweek1monday x.isocalendar.1 ≤ toRd x ∧
    toRd x < isoweek1monday (x.isocalendar.1 + 1) := by
  unfold Date.isocalendar
  dsimp only
  have wy := isoweek1monday_facts x.year h1y
  have wn := isoweek1monday_facts (x.year + 1) (by omega)
  have gy := isoweek1monday_gap x.year h1y
  have cy := yearGap x.year h1y
  by_cases hb1 : toRd x < isoweek1monday x.year
  · rw [if_pos hb1]
    dsimp only
    have hy2 : 2 ≤ x.year := by
      by_contra hy1
      have hx1 : x.year = 1 := by omega
      rw [hx1, show isoweek1monday 1 = 1 from by decide] at hb1
      rw [hx1] at hlo
      rw [show daysBeforeYear 1 = 0 from by decide] at hlo
      omega
    have wp := isoweek1monday_facts (x.year - 1) (by omega)
    have gp := isoweek1monday_gap (x.year - 1) (by omega)
    rw [show x.year - 1 + 1 = x.year from by omega] at gp
    have cp := yearGap (x.year - 1) (by omega)
    rw [show x.year - 1 + 1 = x.year from by omega] at cp
    refine ⟨by omega, by omega, by omega, by omega, by omega, by omega, ?_⟩
    rw [show x.year - 1 + 1 = x.year from by omega]
    omega
  · rw [if_neg hb1]
    try dsimp only
    by_cases hb2 : 52 ≤ (toRd x - isoweek1monday x.year) / 7 ∧
        isoweek1monday (x.year + 1) ≤ toRd x
    · rw [if_pos hb2]
      try dsimp only
      have wn2 := isoweek1monday_facts (x.year + 1 + 1) (by omega)
      have gn := isoweek1monday_gap (x.year + 1) (by omega)
      have cn := yearGap (x.year + 1) (by omega)
      refine ⟨by omega, by omega, by omega, by omega, by omega, by omega, by omega⟩
    · rw [if_neg hb2]
      try dsimp only
      rw [Classical.not_and_iff_or_not_not] at hb2
      rcases hb2 with hb2 | hb2
      · refine ⟨by omega, by omega, by omega, by omega, by omega, by omega, by omega⟩
      · refine ⟨by omega, by omega, by omega, by omega, by omega, by omega, by omega⟩

set_option maxHeartbeats 1000000 in
/-- `fromisocalendar (Y, W, 1)` is the Monday of ISO week `W` of ISO year `Y`:
applying `isocalendar` to it gives back `(Y, W, 1)`. -/
theorem isocalendar_fromIso (Y W : Nat) (hY : 1 ≤ Y) (hW : 1 ≤ W)
    (hlt : isoweek1monday Y + 7 * (W - 1) < isoweek1monday (Y + 1)) :
    (fromIsoCalendar Y W 1).isocalendar = (Y, W, 1) ∧
    toRd (fromIsoCalendar Y W 1) = isoweek1monday Y + 7 * (W - 1) := by
  have wY := isoweek1monday_facts Y hY
  have wY1 := isoweek1monday_facts (Y + 1) (by omega)
  have gY := isoweek1monday_gap Y hY
  have cY := yearGap Y hY
  unfold fromIsoCalendar
  rw [show isoweek1monday Y + 7 * (W - 1) + (1 - 1)
      = isoweek1monday Y + 7 * (W - 1) from by omega]
  obtain ⟨y', m', d', hcd, hrt, hy1, hsl, hsu⟩ :=
    civilFromRd_spec (isoweek1monday Y + 7 * (W - 1)) (by omega)
  rw [hcd]
  unfold Date.isocalendar
  dsimp only
  rw [hrt]
  have hyc : y' = Y - 1 ∨ y' = Y ∨ y' = Y + 1 := by
    rcases Nat.lt_or_ge (Y + 1) y' with hfar | hnear
    · exfalso
      have hm := daysBeforeYear_mono (Y + 1 + 1) y' (by omega) (by omega)
      have := yearGap (Y + 1) (by omega)
      omega
    · rcases Nat.lt_or_ge y' (Y - 1) with hfar | hnear2
      · exfalso
        have hm := daysBeforeYear_mono (y' + 1) (Y - 1) (by omega) (by omega)
        have h2Y : 2 ≤ Y := by omega
        have := yearGap (Y - 1) (by omega)
        rw [show Y - 1 + 1 = Y from by omega] at this
        omega
      · omega
  rcases hyc with hyc | hyc | hyc
  · subst hyc
    have h2Y : 2 ≤ Y := by omega
    have wp := isoweek1monday_facts (Y - 1) (by omega)
    have gp := isoweek1monday_gap (Y - 1) (by omega)
    rw [show Y - 1 + 1 = Y from by omega] at gp
    have cp := yearGap (Y - 1) (by omega)
    rw [show Y - 1 + 1 = Y from by omega] at cp hsu
    rw [if_neg (by omega)]
    try dsimp only
    rw [if_pos ⟨by omega, by rw [show Y - 1 + 1 = Y from by omega]; omega⟩]
    try dsimp only
    have e1 : Y - 1 + 1 = Y := by omega
    have e2 : (isoweek1monday Y + 7 * (W - 1) - isoweek1monday (Y - 1)) % 7 + 1
        = 1 := by omega
    have e3 : W = 1 := by omega
    rw [e1, e2, e3]
    exact ⟨rfl, rfl⟩
  · rw [hyc] at hy1 hsl hsu ⊢
    rw [if_neg (by omega)]
    try dsimp only
    rw [if_neg (fun hx => absurd hx.2 (by omega))]
    try dsimp only
    have e2 : (isoweek1monday Y + 7 * (W - 1) - isoweek1monday Y) / 7 + 1
        = W := by omega
    have e3 : (isoweek1monday Y + 7 * (W - 1) - isoweek1monday Y) % 7 + 1
        = 1 := by omega
    rw [e2, e3]
    exact ⟨rfl, rfl⟩
  · subst hyc
    rw [if_pos (by omega)]
    try dsimp only
    have e1 : Y + 1 - 1 = Y := by omega
    rw [e1]
    have e2 : (isoweek1monday Y + 7 * (W - 1) - isoweek1monday Y) / 7 + 1
        = W := by omega
    have e3 : (isoweek1monday Y + 7 * (W - 1) - isoweek1monday Y) % 7 + 1
        = 1 := by omega
    rw [e2, e3]
    exact ⟨rfl, rfl⟩

/-! ### Unfolding equations for `custom_representative` (one per period tag) -/

theorem cr_7d (d : Date) : custom_representative "7d" d
    = some (fromIsoCalendar d.isocalendar.1 d.isocalendar.2.1 1) := rfl

theorem cr_28d (d : Date) : custom_representative "28d" d
    = some (fromIsoCalendar d.isocalendar.1
        (if d.isocalendar.2.1 / 4 ≠ 0 then d.isocalendar.2.1 / 4 * 4 else 1)
        1) := rfl

theorem cr_m (d : Date) : custom_representative "m" d
    = some ⟨d.year, d.month, 1⟩ := rfl

theorem cr_d (d : Date) : custom_representative "d" d = some d := rfl

theorem cr_q (d : Date) : custom_representative "q" d
    = some ⟨d.year, if d.month / 3 ≠ 0 then d.month / 3 * 3 else 1, 1⟩ := rfl

/-! ### Idempotence of the period representative, per granularity -/

theorem rep7_idem (d : Date) (h : d.Valid) :
    ∃ r, custom_representative "7d" d = some r ∧
      custom_representative "7d" r = some r := by
  have h1y : 1 ≤ d.year := h.1
  have hst := valid_straddle d h
  have hspec := isocalendar_spec d h1y hst.1 hst.2
  obtain ⟨hY1, hW1, hD1, hD7, hid, hwlo, hwhi⟩ := hspec
  have hlt : isoweek1monday d.isocalendar.1 + 7 * (d.isocalendar.2.1 - 1)
      < isoweek1monday (d.isocalendar.1 + 1) := by omega
  have hfix := isocalendar_fromIso d.isocalendar.1 d.isocalendar.2.1 hY1 hW1 hlt
  refine ⟨fromIsoCalendar d.isocalendar.1 d.isocalendar.2.1 1, cr_7d d, ?_⟩
  rw [cr_7d, hfix.1]

theorem quadIdem (v : Nat) (hv : v = 1 ∨ (4 ≤ v ∧ v % 4 = 0)) :
    (if v / 4 ≠ 0 then v / 4 * 4 else 1) = v := by
  split_ifs with h0
  · omega
  · omega

theorem rep28_idem (d : Date) (h : d.Valid) :
    ∃ r, custom_representative "28d" d = some r ∧
      custom_representative "28d" r = some r := by
  have h1y : 1 ≤ d.year := h.1
  have hst := valid_straddle d h
  have hspec := isocalendar_spec d h1y hst.1 hst.2
  obtain ⟨hY1, hW1, hD1, hD7, hid, hwlo, hwhi⟩ := hspec
  have hWle : (if d.isocalendar.2.1 / 4 ≠ 0 then d.isocalendar.2.1 / 4 * 4 else 1)
      ≤ d.isocalendar.2.1 ∧
      1 ≤ (if d.isocalendar.2.1 / 4 ≠ 0 then d.isocalendar.2.1 / 4 * 4 else 1) := by
    split_ifs with h0 <;> omega
  have hlt : isoweek1monday d.isocalendar.1 + 7 *
      ((if d.isocalendar.2.1 / 4 ≠ 0 then d.isocalendar.2.1 / 4 * 4 else 1) - 1)
      < isoweek1monday (d.isocalendar.1 + 1) := by omega
  have hfix := isocalendar_fromIso d.isocalendar.1
    (if d.isocalendar.2.1 / 4 ≠ 0 then d.isocalendar.2.1 / 4 * 4 else 1)
    hY1 hWle.2 hlt
  have hval : (if d.isocalendar.2.1 / 4 ≠ 0 then d.isocalendar.2.1 / 4 * 4 else 1)
      = 1 ∨ (4 ≤ (if d.isocalendar.2.1 / 4 ≠ 0 then d.isocalendar.2.1 / 4 * 4
        else 1) ∧
      (if d.isocalendar.2.1 / 4 ≠ 0 then d.isocalendar.2.1 / 4 * 4 else 1) % 4
        = 0) := by
    split_ifs with h0
    · right
      omega
    · left
      rfl
  refine ⟨_, cr_28d d, ?_⟩
  rw [cr_28d, hfix.1]
  dsimp only
  rw [quadIdem _ hval]

theorem repm_idem (d : Date) :
    ∃ r, custom_representative "m" d = some r ∧
      custom_representative "m" r = some r :=
  ⟨⟨d.year, d.month, 1⟩, cr_m d, cr_m _⟩

theorem repd_idem (d : Date) :
    ∃ r, custom_representative "d" d = some r ∧
      custom_representative "d" r = some r :=
  ⟨d, cr_d d, cr_d d⟩

theorem quarterIdem (v : Nat) (hv : v = 1 ∨ (3 ≤ v ∧ v % 3 = 0)) :
    (if v / 3 ≠ 0 then v / 3 * 3 else 1) = v := by
  split_ifs with h0
  · omega
  · omega

theorem repq_idem (d : Date) (h : d.Valid) :
    ∃ r, custom_representative "q" d = some r ∧
      custom_representative "q" r = some r := by
  have hm12 : 1 ≤ d.month ∧ d.month ≤ 12 := ⟨h.2.2.1, h.2.2.2.1⟩
  have hval : (if d.month / 3 ≠ 0 then d.month / 3 * 3 else 1) = 1 ∨
      (3 ≤ (if d.month / 3 ≠ 0 then d.month / 3 * 3 else 1) ∧
       (if d.month / 3 ≠ 0 then d.month / 3 * 3 else 1) % 3 = 0) := by
    split_ifs with h0
    · right
      omega
    · left
      rfl
  refine ⟨_, cr_q d, ?_⟩
  rw [cr_q]
  dsimp only
  rw [quarterIdem _ hval]

/-! ### Claim theorems for the period calendar -/

/-- C4: with quarterly granularity the representative of 2024-07-15 is
2024-06-01, not the first day of a standard quarter (2024-07-01): the source
computes the anchor month as `month//3*3` (and 1 when that is 0), so the
"quarters" start in months 1, 3, 6, 9 and 12. -/
theorem quarterly_representative_failing :
    custom_representative "q" ⟨2024, 7, 15⟩ = some ⟨2024, 6, 1⟩ ∧
    (⟨2024, 6, 1⟩ : Date) ≠ ⟨2024, 7, 1⟩ ∧
    custom_representative "q" ⟨2024, 6, 15⟩ = some ⟨2024, 6, 1⟩ := by decide

/-- C5 counterexample: 2024-01-08 lies in ISO week 2 of 2024, so the claim
(`quad = w//4 if w//4 != 0 else 1`, anchor = Monday of ISO week `quad*4`)
predicts the Monday of ISO week 4, i.e. 2024-01-22; the code returns the
Monday of ISO week 1, 2024-01-01. -/
theorem rep28_week2_counterexample :
    (⟨2024, 1, 8⟩ : Date).isocalendar = (2024, 2, 1) ∧
    fromIsoCalendar 2024 4 1 = ⟨2024, 1, 22⟩ ∧
    custom_representative "28d" ⟨2024, 1, 8⟩ = some ⟨2024, 1, 1⟩ ∧
    custom_representative "28d" ⟨2024, 1, 8⟩ ≠ some ⟨2024, 1, 22⟩ := by decide

/-- C5 amended: with 28-day granularity, the representative of a valid date
with ISO week `w` is the Monday of ISO week `w' = (w//4)*4 if w//4 != 0 else
1` of the date's ISO year; in particular dates in ISO weeks 1-3 anchor to the
Monday of ISO week 1 (not week 4). -/
theorem rep28_monday_of_quad (d : Date) (h : d.Valid) :
    ∃ r, custom_representative "28d" d = some r ∧
      r.isocalendar = (d.isocalendar.1,
        (if d.isocalendar.2.1 / 4 ≠ 0 then d.isocalendar.2.1 / 4 * 4 else 1),
        1) := by
  have h1y : 1 ≤ d.year := h.1
  have hst := valid_straddle d h
  have hspec := isocalendar_spec d h1y hst.1 hst.2
  obtain ⟨hY1, hW1, hD1, hD7, hid, hwlo, hwhi⟩ := hspec
  have hWle : (if d.isocalendar.2.1 / 4 ≠ 0 then d.isocalendar.2.1 / 4 * 4 else 1)
      ≤ d.isocalendar.2.1 ∧
      1 ≤ (if d.isocalendar.2.1 / 4 ≠ 0 then d.isocalendar.2.1 / 4 * 4 else 1) := by
    split_ifs with h0 <;> omega
  have hlt : isoweek1monday d.isocalendar.1 + 7 *
      ((if d.isocalendar.2.1 / 4 ≠ 0 then d.isocalendar.2.1 / 4 * 4 else 1) - 1)
      < isoweek1monday (d.isocalendar.1 + 1) := by omega
  have hfix := isocalendar_fromIso d.isocalendar.1
    (if d.isocalendar.2.1 / 4 ≠ 0 then d.isocalendar.2.1 / 4 * 4 else 1)
    hY1 hWle.2 hlt
  exact ⟨_, cr_28d d, hfix.1⟩

/-- C5 amended, witness at 2024-01-08 (ISO week 2). -/
theorem rep28_monday_of_quad_witness :
    (⟨2024, 1, 8⟩ : Date).Valid ∧
    ∃ r, custom_representative "28d" ⟨2024, 1, 8⟩ = some r ∧
      r.isocalendar = ((⟨2024, 1, 8⟩ : Date).isocalendar.1,
        (if (⟨2024, 1, 8⟩ : Date).isocalendar.2.1 / 4 ≠ 0 then
          (⟨2024, 1, 8⟩ : Date).isocalendar.2.1 / 4 * 4 else 1), 1) :=
  ⟨by decide, rep28_monday_of_quad ⟨2024, 1, 8⟩ (by decide)⟩

/-- C6: for each supported granularity tag and every valid date,
`custom_representative` is idempotent: it returns some representative `r`,
and applied again to `r` returns `r` itself. -/
theorem representative_idempotent (tipo : String) (d : Date)
    (htipo : tipo ∈ ["m", "q", "d", "28d", "7d"]) (h : d.Valid) :
    ∃ r, custom_representative tipo d = some r ∧
      custom_representative tipo r = some r := by
  simp only [List.mem_cons, List.not_mem_nil, or_false] at htipo
  rcases htipo with ht | ht | ht | ht | ht
  · subst ht
    exact repm_idem d
  · subst ht
    exact repq_idem d h
  · subst ht
    exact repd_idem d
  · subst ht
    exact rep28_idem d h
  · subst ht
    exact rep7_idem d h

/-- C6, witness at granularity `28d` and date 2024-01-08. -/
theorem representative_idempotent_witness :
    (("28d" : String) ∈ ["m", "q", "d", "28d", "7d"]) ∧
    (⟨2024, 1, 8⟩ : Date).Valid ∧
    ∃ r, custom_representative "28d" ⟨2024, 1, 8⟩ = some r ∧
      custom_representative "28d" r = some r :=
  ⟨by decide, by decide,
    representative_idempotent "28d" ⟨2024, 1, 8⟩ (by decide) (by decide)⟩

/-! ## Growth-accounting layer (`growth_accounting_pmf.py`)

The input of `GrowthAccounting.fit` after period assignment (line 180) is a
frame of events with an entity id, an assigned period representative and a
quantity.  Periods are represented by their `toRd` ordinal (a `Nat`), which
is order-isomorphic to the representative dates; quantities are exact
rationals standing for the float `column_input`. -/

/-- One normalized event row: entity id, period-representative ordinal,
quantity (`column_input`; 1 per row in `simple` mode). -/
structure Ev where
  uid : Nat
  period : Nat
  qty : ℚ
deriving DecidableEq, Repr

/-- Ascending sort (pandas group keys are emitted in sorted order). -/
def sortNat (l : List Nat) : List Nat := l.insertionSort (· ≤ ·)

/-- The distinct periods observed anywhere in the dataset, ascending. -/
def periodsOf (events : List Ev) : List Nat :=
  sortNat (events.map Ev.period).dedup

/-- The distinct entity ids of the dataset. -/
def usersOf (events : List Ev) : List Nat :=
  (events.map Ev.uid).dedup

/-- `cohort_rep` of entity `u`: the minimum period over its events
(`df.groupby(level=0)['period_rep'].min()`). -/
def cohortOf (events : List Ev) (u : Nat) : Nat :=
  (((events.filter (fun e => e.uid = u)).map Ev.period)).min?.getD 0

/-- `freq`: number of event rows of entity `u` in period `p`. -/
def freqOf (events : List Ev) (u p : Nat) : Nat :=
  (events.filter (fun e => e.uid = u ∧ e.period = p)).length

/-- `revenue`: summed quantity of entity `u` in period `p`, zero-filled
(line 202 `fillna(0)`). -/
def revenueOf (events : List Ev) (u p : Nat) : ℚ :=
  ((events.filter (fun e => e.uid = u ∧ e.period = p)).map Ev.qty).sum

/-- `uniques = np.where(freq > 0, 1, 0)`. -/
def uniquesOf (events : List Ev) (u p : Nat) : Nat :=
  if 0 < freqOf events u p then 1 else 0

/-- The dense period range of one entity: every period observed anywhere in
the dataset, from the entity's cohort on (the `unstack().fillna(0).stack()`
grid of line 187 filtered by `period_rep >= cohort_rep` at line 188). -/
def entityPeriods (events : List Ev) (u : Nat) : List Nat :=
  (periodsOf events).filter (fun p => cohortOf events u ≤ p)

/-- Pair each element of the (ascending) period list of one entity with its
predecessor in that list, `none` for the first (`diff`'s first row is NaN). -/
def withPrev (ps : List Nat) : List (Nat × Option Nat) :=
  ps.zip (none :: ps.map some)

/-- One row of the per-entity per-period frame `df_users`/`df_revenue`. -/
structure URow where
  uid : Nat
  period : Nat
  prev : Option Nat
deriving DecidableEq, Repr

/-- All rows of the per-entity per-period dense frame, in frame order. -/
def gridRows (events : List Ev) : List URow :=
  (usersOf events).flatMap (fun u =>
    (withPrev (entityPeriods events u)).map (fun pp => URow.mk u pp.1 pp.2))

/-- `change = uniques.diff()`, with the first row's NaN replaced by 2
(line 197 `fillna(2)`). -/
def changeOf (events : List Ev) (r : URow) : Int :=
  match r.prev with
  | none => 2
  | some q => (uniquesOf events r.uid r.period : Int) - uniquesOf events r.uid q

/-- `supercolumn = change + uniques`. -/
def superOf (events : List Ev) (r : URow) : Int :=
  changeOf events r + uniquesOf events r.uid r.period

/-- `revchange = revenue.diff()` (`none` = NaN on each entity's first row). -/
def revchangeOf (events : List Ev) (r : URow) : Option ℚ :=
  r.prev.map (fun q => revenueOf events r.uid r.period - revenueOf events r.uid q)

/-- `revstatus = np.where(revchange > 0, 1, np.where(revchange < 0, -1, 0))`;
NaN compares false on both sides, so first rows get 0. -/
def revstatusOf (events : List Ev) (r : URow) : Int :=
  match revchangeOf events r with
  | some rc => if 0 < rc then 1 else if rc < 0 then -1 else 0
  | none => 0

/-- `retained = revenue - np.where(revchange < 0, 0, revchange)`.  On first
rows `revchange` is NaN and so is `retained`; those rows never satisfy the
`supercolumn == 1` filter of line 222, and pandas' group sum skips NaN, so
the 0 stand-in used here is summed identically. -/
def retainedOf (events : List Ev) (r : URow) : ℚ :=
  revenueOf events r.uid r.period -
    (match revchangeOf events r with
     | some rc => if rc < 0 then 0 else rc
     | none => 0)

/-- The row index of `dfgrowth` (line 214): the distinct `cohort_rep` values,
ascending. -/
def cohortsList (events : List Ev) : List Nat :=
  sortNat ((events.map (fun e => cohortOf events e.uid)).dedup)

/-- `dfgrowth['new']` aligned at index value `c` (0 when no rows qualify,
line 225 `fillna(0)`). -/
def newSum (events : List Ev) (c : Nat) : ℚ :=
  (((gridRows events).filter (fun r => superOf events r = 3 ∧ r.period = c)).map
    (fun r => revenueOf events r.uid r.period)).sum

/-- `dfgrowth['resurrected']` aligned at index value `c`. -/
def resSum (events : List Ev) (c : Nat) : ℚ :=
  (((gridRows events).filter (fun r => superOf events r = 2 ∧ r.period = c)).map
    (fun r => revenueOf events r.uid r.period)).sum

/-- `dfgrowth['expansion']` aligned at index value `c`. -/
def expSum (events : List Ev) (c : Nat) : ℚ :=
  (((gridRows events).filter (fun r => superOf events r = 1 ∧
      revstatusOf events r = 1 ∧ r.period = c)).map
    (fun r => (revchangeOf events r).getD 0)).sum

/-- `dfgrowth['contraction']` aligned at index value `c`. -/
def conSum (events : List Ev) (c : Nat) : ℚ :=
  (((gridRows events).filter (fun r => superOf events r = 1 ∧
      revstatusOf events r = -1 ∧ r.period = c)).map
    (fun r => (revchangeOf events r).getD 0)).sum

/-- `dfgrowth['retained']` aligned at index value `c`. -/
def retSum (events : List Ev) (c : Nat) : ℚ :=
  (((gridRows events).filter (fun r => superOf events r = 1 ∧ r.period = c)).map
    (fun r => retainedOf events r)).sum

/-- `dfgrowth['churned']` aligned at index value `c`. -/
def chuSum (events : List Ev) (c : Nat) : ℚ :=
  (((gridRows events).filter (fun r => superOf events r = -1 ∧ r.period = c)).map
    (fun r => (revchangeOf events r).getD 0)).sum

/-- `dfgrowth['total']` aligned at index value `c` (line 227). -/
def totSum (events : List Ev) (c : Nat) : ℚ :=
  (((gridRows events).filter (fun r => r.period = c)).map
    (fun r => revenueOf events r.uid r.period)).sum

/-! ### IEEE-754 style value type for the derived-rate columns -/

/-- A pandas float cell: finite, `inf`, `-inf` or `NaN`. -/
inductive FVal where
  | num (q : ℚ)
  | inf
  | ninf
  | nan
deriving DecidableEq, Repr

/-- IEEE negation. -/
def FVal.neg : FVal → FVal
  | num q => num (-q)
  | inf => ninf
  | ninf => inf
  | nan => nan

/-- IEEE addition (NaN propagates; `inf + -inf = NaN`). -/
def FVal.add : FVal → FVal → FVal
  | nan, _ => nan
  | _, nan => nan
  | inf, ninf => nan
  | ninf, inf => nan
  | inf, _ => inf
  | _, inf => inf
  | ninf, _ => ninf
  | _, ninf => ninf
  | num a, num b => num (a + b)

/-- IEEE subtraction. -/
def FVal.sub (a b : FVal) : FVal := a.add b.neg

/-- IEEE division (finite/0 gives a signed infinity, 0/0 gives NaN). -/
def FVal.div : FVal → FVal → FVal
  | nan, _ => nan
  | _, nan => nan
  | inf, inf => nan
  | inf, ninf => nan
  | ninf, inf => nan
  | ninf, ninf => nan
  | inf, num b => if 0 ≤ b then inf else ninf
  | ninf, num b => if 0 ≤ b then ninf else inf
  | num _, inf => num 0
  | num _, ninf => num 0
  | num a, num b =>
      if b = 0 then (if 0 < a then inf else if a < 0 then ninf else nan)
      else num (a / b)

/-- Line 244: `replace(np.inf, np.nan).replace(-np.inf, np.nan)`. -/
def FVal.replaceInf : FVal → FVal
  | inf => nan
  | ninf => nan
  | x => x

/-- `category / category.shift(1)` at one row: the previous row's value, or
NaN when there is no previous row. -/
def shiftDiv (a : ℚ) (prev : Option ℚ) : FVal :=
  FVal.div (FVal.num a)
    (match prev with
     | none => FVal.nan
     | some b => FVal.num b)

/-- One row of the fitted `dfgrowth` frame, with the 16 column values of
`self.df` plus the index value (`cohort_rep`) and the `contraction_rate`
attribute of line 261 (computed but not selected into `self.df`). -/
structure GARow where
  period_rep : Nat
  total : ℚ
  new : ℚ
  resurrected : ℚ
  expansion : ℚ
  contraction : ℚ
  retained : ℚ
  churned : ℚ
  new_rate : FVal
  resurrected_rate : FVal
  expansion_rate : FVal
  contraction_rate : FVal
  retained_rate : FVal
  churned_rate : FVal
  growth_rate : FVal
  gross_retention : FVal
  quick_ratio : FVal
  net_churn : FVal
deriving DecidableEq, Repr

/-- Build the output row with index value `c`, where `pc` is the previous
index value (`none` for the first row).  The rate columns of lines 232-242
are computed first with IEEE semantics and the `inf → NaN` replacement of
line 244 is applied at the end. -/
def mkRow (events : List Ev) (c : Nat) (pc : Option Nat) : GARow :=
  let nw := newSum events c
  let rs := resSum events c
  let ex := expSum events c
  let co := conSum events c
  let re := retSum events c
  let ch := chuSum events c
  let nwr := shiftDiv nw (pc.map (newSum events))
  let rsr := shiftDiv rs (pc.map (resSum events))
  let exr := shiftDiv ex (pc.map (expSum events))
  let cor := shiftDiv co (pc.map (conSum events))
  let rer := shiftDiv re (pc.map (retSum events))
  let chr := shiftDiv ch (pc.map (chuSum events))
  { period_rep := c
    total := totSum events c
    new := nw
    resurrected := rs
    expansion := ex
    contraction := co
    retained := re
    churned := ch
    new_rate := nwr.replaceInf
    resurrected_rate := rsr.replaceInf
    expansion_rate := exr.replaceInf
    contraction_rate := cor.replaceInf
    retained_rate := rer.replaceInf
    churned_rate := chr.replaceInf
    growth_rate := ((((nwr.add rsr).add exr).sub cor).sub chr).replaceInf
    gross_retention := (shiftDiv re (pc.map (totSum events))).replaceInf
    quick_ratio := (FVal.div (FVal.num (nw + rs + ex))
      (FVal.num (-ch - co))).replaceInf
    net_churn := (shiftDiv (-ch - co - rs - ex)
      (pc.map (totSum events))).replaceInf }

/-- `GrowthAccounting.fit` on the normalized event frame: one output row per
distinct `cohort_rep` value (ascending), each row's shifted denominators
taken from the previous row. -/
def GrowthAccounting.fit (events : List Ev) : List GARow :=
  ((cohortsList events).zip (none :: (cohortsList events).map some)).map
    (fun cp => mkRow events cp.1 cp.2)

/-- The column selection of `self.df` (lines 270-272 of the source), as the
literal list of column names. -/
def GrowthAccounting.df_columns : List String :=
  ["total", "new", "resurrected", "expansion", "contraction", "retained",
   "churned", "new_rate", "resurrected_rate", "expansion_rate",
   "retained_rate", "churned_rate", "growth_rate", "gross_retention",
   "quick_ratio", "net_churn"]

/-- The whole `fit` pipeline from raw dated rows: assign
`period_rep = custom_representative(period, date)` (line 180), then run the
growth-accounting computation.  `none` only when the period tag is invalid. -/
def GrowthAccounting.fitDates (period : String)
    (rows : List (Nat × Date × ℚ)) : Option (List GARow) :=
  (rows.mapM (fun r => (custom_representative period r.2.1).map
    (fun rep => Ev.mk r.1 (toRd rep) r.2.2))).map GrowthAccounting.fit

/-! ### Claim theorems C1 and C8 -/

/-- C1: `fit` indexes the output frame by `groupby('cohort_rep')` (line 214),
so the rows are the distinct cohort dates, not the observed periods.  For a
single entity active in January and February 2024 (monthly granularity) the
dataset has two observed period buckets but the output has a single row,
keyed by the January cohort. -/
theorem fit_rows_keyed_by_cohort_not_period :
    GrowthAccounting.fitDates "m" [(0, ⟨2024, 1, 5⟩, 1), (0, ⟨2024, 2, 5⟩, 1)]
      = some (GrowthAccounting.fit
          [⟨0, toRd ⟨2024, 1, 1⟩, 1⟩, ⟨0, toRd ⟨2024, 2, 1⟩, 1⟩]) ∧
    (GrowthAccounting.fit
        [⟨0, toRd ⟨2024, 1, 1⟩, 1⟩, ⟨0, toRd ⟨2024, 2, 1⟩, 1⟩]).map
        GARow.period_rep = [toRd ⟨2024, 1, 1⟩] ∧
    periodsOf [⟨0, toRd ⟨2024, 1, 1⟩, 1⟩, ⟨0, toRd ⟨2024, 2, 1⟩, 1⟩]
      = [toRd ⟨2024, 1, 1⟩, toRd ⟨2024, 2, 1⟩] := by decide

/-- C8: the column selection of `self.df` (lines 270-272) contains the other
five category rates but omits `contraction_rate`, although lines 235 and 261
compute it and the class docstring promises every attribute from `total` to
`net_churn` in `df`. -/
theorem contraction_rate_not_selected :
    "contraction_rate" ∉ GrowthAccounting.df_columns ∧
    "new_rate" ∈ GrowthAccounting.df_columns ∧
    "resurrected_rate" ∈ GrowthAccounting.df_columns ∧
    "expansion_rate" ∈ GrowthAccounting.df_columns ∧
    "retained_rate" ∈ GrowthAccounting.df_columns ∧
    "churned_rate" ∈ GrowthAccounting.df_columns ∧
    GrowthAccounting.df_columns.length = 16 := by decide

/-! ### List-sum helpers for the reconciliation proof -/

theorem qSumFilter {α : Type} (p : α → Bool) (f : α → ℚ) (l : List α) :
    ((l.filter p).map f).sum = (l.map (fun x => if p x then f x else 0)).sum := by
  induction l with
  | nil => rfl
  | cons a l ih =>
    by_cases ha : p a
    · simp only [List.filter_cons, if_pos ha, List.map_cons, List.sum_cons, ih]
    · simp only [List.filter_cons, if_neg ha, List.map_cons, List.sum_cons, ih]
      simp only [Bool.not_eq_true] at ha
      simp [ha]

theorem qSumMapAdd {α : Type} (f g : α → ℚ) (l : List α) :
    (l.map f).sum + (l.map g).sum = (l.map (fun x => f x + g x)).sum := by
  induction l with
  | nil => simp
  | cons a l ih =>
    simp only [List.map_cons, List.sum_cons]
    rw [← ih]
    ring

theorem uniques01 (events : List Ev) (u p : Nat) :
    uniquesOf events u p = 0 ∨ uniquesOf events u p = 1 := by
  unfold uniquesOf
  split_ifs <;> simp

theorem revenue_zero_of_inactive (events : List Ev) (u p : Nat)
    (h0 : uniquesOf events u p = 0) : revenueOf events u p = 0 := by
  unfold uniquesOf at h0
  split_ifs at h0 with hf
  have hnil : events.filter (fun e => e.uid = u ∧ e.period = p) = [] :=
    List.length_eq_zero.mp (by unfold freqOf at hf; omega)
  unfold revenueOf
  rw [hnil]
  rfl

set_option maxHeartbeats 1000000 in
/-- Per-row reconciliation: on any row of the per-entity frame, the
contributions to `new`, `resurrected`, `expansion` and `retained` sum to the
row's revenue. -/
theorem rowSplitCore (events : List Ev) (r : URow) :
    (if superOf events r = 3 then revenueOf events r.uid r.period else 0)
  + (if superOf events r = 2 then revenueOf events r.uid r.period else 0)
  + (if superOf events r = 1 ∧ revstatusOf events r = 1 then
      (revchangeOf events r).getD 0 else 0)
  + (if superOf events r = 1 then retainedOf events r else 0)
  = revenueOf events r.uid r.period := by
  rcases hup : r.prev with _ | q
  · -- first row of an entity: change = 2
    have hch : changeOf events r = 2 := by unfold changeOf; rw [hup]
    have hrc : revchangeOf events r = none := by unfold revchangeOf; rw [hup]; rfl
    have hrs : revstatusOf events r = 0 := by unfold revstatusOf; rw [hrc]
    rcases uniques01 events r.uid r.period with h0 | h1
    · have hsup : superOf events r = 2 := by unfold superOf; rw [hch, h0]; rfl
      rw [revenue_zero_of_inactive events r.uid r.period h0]
      simp [hsup, hrs]
    · have hsup : superOf events r = 3 := by unfold superOf; rw [hch, h1]; rfl
      simp [hsup, hrs]
  · -- later row: change = uniques - uniques_prev
    have hch : changeOf events r
        = (uniquesOf events r.uid r.period : Int) - uniquesOf events r.uid q := by
      unfold changeOf
      rw [hup]
    have hrc : revchangeOf events r
        = some (revenueOf events r.uid r.period - revenueOf events r.uid q) := by
      unfold revchangeOf
      rw [hup]
      rfl
    rcases uniques01 events r.uid r.period with h0 | h1 <;>
      rcases uniques01 events r.uid q with hq0 | hq1
    · have hsup : superOf events r = 0 := by
        unfold superOf
        rw [hch, h0, hq0]
        rfl
      rw [revenue_zero_of_inactive events r.uid r.period h0]
      simp [hsup]
    · have hsup : superOf events r = -1 := by
        unfold superOf
        rw [hch, h0, hq1]
        rfl
      rw [revenue_zero_of_inactive events r.uid r.period h0]
      simp [hsup]
    · have hsup : superOf events r = 2 := by
        unfold superOf
        rw [hch, h1, hq0]
        rfl
      simp [hsup]
    · have hsup : superOf events r = 1 := by
        unfold superOf
        rw [hch, h1, hq1]
        rfl
      have hrs : revstatusOf events r
          = if 0 < revenueOf events r.uid r.period - revenueOf events r.uid q
            then 1 else
            if revenueOf events r.uid r.period - revenueOf events r.uid q < 0
            then -1 else 0 := by
        unfold revstatusOf
        rw [hrc]
      have hret : retainedOf events r
          = revenueOf events r.uid r.period -
            (if revenueOf events r.uid r.period - revenueOf events r.uid q < 0
             then 0
             else revenueOf events r.uid r.period - revenueOf events r.uid q) := by
        unfold retainedOf
        rw [hrc]
      by_cases hpos : 0 < revenueOf events r.uid r.period - revenueOf events r.uid q
      · have hnn : ¬ revenueOf events r.uid r.period - revenueOf events r.uid q < 0 := by
          linarith
        simp only [hsup, hrs, hret, hrc, if_pos hpos, if_neg hnn]
        norm_num
      · have hnr : revstatusOf events r ≠ 1 := by
          rw [hrs, if_neg hpos]
          split_ifs <;> norm_num
        by_cases hneg : revenueOf events r.uid r.period - revenueOf events r.uid q < 0
        · simp only [hsup, hret, if_pos hneg]
          simp [hnr]
        · simp only [hsup, hret, if_neg hneg]
          have hz : revenueOf events r.uid r.period - revenueOf events r.uid q = 0 := by
            linarith
          simp [hnr, hz]

/-- `rowSplitCore` with the period-alignment conjunct of each class filter. -/
theorem rowSplit (events : List Ev) (c : Nat) (r : URow) :
    (if superOf events r = 3 ∧ r.period = c then
      revenueOf events r.uid r.period else 0)
  + (if superOf events r = 2 ∧ r.period = c then
      revenueOf events r.uid r.period else 0)
  + (if superOf events r = 1 ∧ revstatusOf events r = 1 ∧ r.period = c then
      (revchangeOf events r).getD 0 else 0)
  + (if superOf events r = 1 ∧ r.period = c then retainedOf events r else 0)
  = (if r.period = c then revenueOf events r.uid r.period else 0) := by
  by_cases hp : r.period = c
  · simp only [and_iff_left hp]
    rw [if_pos hp]
    exact rowSplitCore events r
  · simp [hp]

theorem qMapCongrSum {α : Type} (l : List α) (f g : α → ℚ)
    (h : ∀ a ∈ l, f a = g a) : (l.map f).sum = (l.map g).sum := by
  induction l with
  | nil => rfl
  | cons a l ih =>
    simp only [List.map_cons, List.sum_cons]
    rw [h a (List.mem_cons_self a l), ih (fun b hb => h b (List.mem_cons_of_mem a hb))]

/-- Frame-level reconciliation at one index value. -/
theorem catReconcile (events : List Ev) (c : Nat) :
    newSum events c + resSum events c + expSum events c + retSum events c
      = totSum events c := by
  unfold newSum resSum expSum retSum totSum
  rw [qSumFilter, qSumFilter, qSumFilter, qSumFilter, qSumFilter,
    qSumMapAdd, qSumMapAdd, qSumMapAdd]
  apply qMapCongrSum
  intro r _
  simp only [decide_eq_true_eq]
  exact rowSplit events c r

theorem mkRow_period (events : List Ev) (c : Nat) (pc : Option Nat) :
    (mkRow events c pc).period_rep = c := rfl

theorem mkRow_total (events : List Ev) (c : Nat) (pc : Option Nat) :
    (mkRow events c pc).total = totSum events c := rfl

theorem mkRow_new (events : List Ev) (c : Nat) (pc : Option Nat) :
    (mkRow events c pc).new = newSum events c := rfl

theorem mkRow_res (events : List Ev) (c : Nat) (pc : Option Nat) :
    (mkRow events c pc).resurrected = resSum events c := rfl

theorem mkRow_exp (events : List Ev) (c : Nat) (pc : Option Nat) :
    (mkRow events c pc).expansion = expSum events c := rfl

theorem mkRow_con (events : List Ev) (c : Nat) (pc : Option Nat) :
    (mkRow events c pc).contraction = conSum events c := rfl

theorem mkRow_ret (events : List Ev) (c : Nat) (pc : Option Nat) :
    (mkRow events c pc).retained = retSum events c := rfl

theorem mkRow_chu (events : List Ev) (c : Nat) (pc : Option Nat) :
    (mkRow events c pc).churned = chuSum events c := rfl

theorem mem_sortNat (l : List Nat) (x : Nat) : x ∈ sortNat l ↔ x ∈ l :=
  (List.perm_insertionSort _ _).mem_iff

theorem sortNat_sorted (l : List Nat) : List.Sorted (· ≤ ·) (sortNat l) :=
  List.sorted_insertionSort _ _

theorem periodsOf_nodup (events : List Ev) : (periodsOf events).Nodup := by
  unfold periodsOf sortNat
  exact ((List.perm_insertionSort _ _).nodup_iff).mpr (List.nodup_dedup _)

theorem mem_periodsOf (events : List Ev) (p : Nat) :
    p ∈ periodsOf events ↔ p ∈ events.map Ev.period := by
  unfold periodsOf
  rw [mem_sortNat, List.mem_dedup]

/-- For an entity with at least one event, `cohort_rep` is one of its periods
and is a lower bound on all of them. -/
theorem cohortOf_spec (events : List Ev) (u : Nat)
    (h : (events.filter (fun e => e.uid = u)).map Ev.period ≠ []) :
    cohortOf events u ∈ (events.filter (fun e => e.uid = u)).map Ev.period ∧
    ∀ p ∈ (events.filter (fun e => e.uid = u)).map Ev.period,
      cohortOf events u ≤ p := by
  unfold cohortOf
  rcases hm : ((events.filter (fun e => e.uid = u)).map Ev.period).min? with _ | m
  · exact absurd (List.min?_eq_none_iff.mp hm) h
  · have hmem := List.min?_mem (fun a b => by omega) hm
    have hle : ∀ b ∈ (events.filter (fun e => e.uid = u)).map Ev.period,
        m ≤ b :=
      (@List.le_min?_iff ℕ m _ _ (fun a b c => by omega) _ hm m).mp (le_refl m)
    rw [hm]
    exact ⟨hmem, hle⟩

/-- Every value in the `dfgrowth` row index is an observed period. -/
theorem cohortsList_sub_periods (events : List Ev) (c : Nat)
    (hc : c ∈ cohortsList events) : c ∈ periodsOf events := by
  unfold cohortsList at hc
  rw [mem_sortNat, List.mem_dedup, List.mem_map] at hc
  obtain ⟨e, he, hce⟩ := hc
  have hne : (events.filter (fun e' => e'.uid = e.uid)).map Ev.period ≠ [] := by
    intro hempty
    have : e ∈ events.filter (fun e' => e'.uid = e.uid) :=
      List.mem_filter.mpr ⟨he, by simp⟩
    rw [List.map_eq_nil] at hempty
    rw [hempty] at this
    exact absurd this (List.not_mem_nil e)
  obtain ⟨hmem, _⟩ := cohortOf_spec events e.uid hne
  rw [List.mem_map] at hmem
  obtain ⟨e', he', hpe⟩ := hmem
  rw [mem_periodsOf, List.mem_map]
  exact ⟨e', (List.mem_filter.mp he').1, by rw [← hce]; exact hpe⟩

theorem flatMapFilterMapSum (l : List Nat) (g : Nat → List URow)
    (p : URow → Bool) (f : URow → ℚ) :
    (((l.flatMap g).filter p).map f).sum
      = (l.map (fun u => (((g u).filter p).map f).sum)).sum := by
  induction l with
  | nil => rfl
  | cons a l ih =>
    simp only [List.flatMap_cons, List.filter_append, List.map_append,
      List.sum_append, List.map_cons, List.sum_cons, ih]

set_option maxHeartbeats 1000000 in
/-- Summing a per-period value over an entity's dense rows restricted to one
period: the value at that period when it is in the entity's range, else 0. -/
theorem zipRowSum (u c : Nat) (g : URow → ℚ) (v : ℚ)
    (hg : ∀ o : Option Nat, g ⟨u, c, o⟩ = v) :
    ∀ (ps : List Nat) (os : List (Option Nat)), ps.Nodup →
    ps.length ≤ os.length →
    ((((ps.zip os).map (fun pp => URow.mk u pp.1 pp.2)).filter
        (fun r => r.period = c)).map g).sum = if c ∈ ps then v else 0 := by
  intro ps
  induction ps with
  | nil =>
    intro os _ _
    simp
  | cons p ps ih =>
    intro os hnd hlen
    match os with
    | [] => simp at hlen
    | o :: os =>
      rw [List.zip_cons_cons, List.map_cons]
      by_cases hpc : p = c
      · subst hpc
        rw [List.filter_cons_of_pos (by simp), List.map_cons, List.sum_cons,
          ih os (List.nodup_cons.mp hnd).2 (by simpa using hlen),
          if_neg (List.nodup_cons.mp hnd).1,
          if_pos (List.mem_cons_self _ _), hg o]
        ring
      · rw [List.filter_cons_of_neg (by simp [hpc]),
          ih os (List.nodup_cons.mp hnd).2 (by simpa using hlen)]
        have hiff : (c ∈ ps) ↔ (c ∈ p :: ps) := by
          rw [List.mem_cons]
          constructor
          · exact fun h => Or.inr h
          · rintro (h | h)
            · exact absurd h.symm hpc
            · exact h
        exact if_congr hiff rfl rfl

theorem entityPeriods_nodup (events : List Ev) (u : Nat) :
    (entityPeriods events u).Nodup :=
  (periodsOf_nodup events).filter _

/-- An entity has no revenue before its cohort period. -/
theorem revenue_zero_of_before_cohort (events : List Ev) (u c : Nat)
    (h : ¬ cohortOf events u ≤ c) : revenueOf events u c = 0 := by
  unfold revenueOf
  have hnil : events.filter (fun e => e.uid = u ∧ e.period = c) = [] := by
    rw [List.filter_eq_nil_iff]
    intro e he hcond
    simp only [decide_eq_true_eq] at hcond
    apply h
    have hmemf : e ∈ events.filter (fun e' => e'.uid = u) :=
      List.mem_filter.mpr ⟨he, by simp [hcond.1]⟩
    have hne : (events.filter (fun e' => e'.uid = u)).map Ev.period ≠ [] := by
      intro hempty
      rw [List.map_eq_nil_iff] at hempty
      rw [hempty] at hmemf
      exact absurd hmemf (List.not_mem_nil e)
    have hcm : c ∈ (events.filter (fun e' => e'.uid = u)).map Ev.period :=
      List.mem_map.mpr ⟨e, hmemf, hcond.2⟩
    exact (cohortOf_spec events u hne).2 c hcm
  rw [hnil]
  rfl

/-- `dfgrowth['total']` at period `c` is the summed revenue over all
entities for that period. -/
theorem totSum_users (events : List Ev) (c : Nat) (hc : c ∈ periodsOf events) :
    totSum events c
      = ((usersOf events).map (fun u => revenueOf events u c)).sum := by
  unfold totSum gridRows
  rw [flatMapFilterMapSum]
  apply qMapCongrSum
  intro u _
  unfold withPrev
  rw [zipRowSum u c (fun r => revenueOf events r.uid r.period)
    (revenueOf events u c) (fun o => rfl) (entityPeriods events u) _
    (entityPeriods_nodup events u) (by simp)]
  by_cases hcm : c ∈ entityPeriods events u
  · rw [if_pos hcm]
  · rw [if_neg hcm]
    unfold entityPeriods at hcm
    have hlt : ¬ cohortOf events u ≤ c := by
      intro hle
      exact hcm (List.mem_filter.mpr ⟨hc, by simp [hle]⟩)
    rw [revenue_zero_of_before_cohort events u c hlt]

/-- C2: on every row of the growth-accounting output,
`new + resurrected + expansion + retained` equals `total`, and `total` is the
summed revenue of all entities in the row's period. -/
theorem fit_reconciliation (events : List Ev) (row : GARow)
    (hrow : row ∈ GrowthAccounting.fit events) :
    row.new + row.resurrected + row.expansion + row.retained = row.total ∧
    row.total = ((usersOf events).map
      (fun u => revenueOf events u row.period_rep)).sum := by
  unfold GrowthAccounting.fit at hrow
  obtain ⟨cp, hcp, hmk⟩ := List.mem_map.mp hrow
  obtain ⟨c', pc⟩ := cp
  subst hmk
  have hc : c' ∈ cohortsList events := (List.of_mem_zip hcp).1
  constructor
  · rw [mkRow_new, mkRow_res, mkRow_exp, mkRow_ret, mkRow_total]
    exact catReconcile events c'
  · rw [mkRow_total, mkRow_period]
    exact totSum_users events c' (cohortsList_sub_periods events c' hc)

/-- C2, witness: the first output row of a three-event dataset. -/
theorem fit_reconciliation_witness :
    (mkRow [⟨1, 10, 5⟩, ⟨1, 20, 3⟩, ⟨2, 20, 4⟩] 10 none
      ∈ GrowthAccounting.fit [⟨1, 10, 5⟩, ⟨1, 20, 3⟩, ⟨2, 20, 4⟩]) ∧
    ((mkRow [⟨1, 10, 5⟩, ⟨1, 20, 3⟩, ⟨2, 20, 4⟩] 10 none).new +
        (mkRow [⟨1, 10, 5⟩, ⟨1, 20, 3⟩, ⟨2, 20, 4⟩] 10 none).resurrected +
        (mkRow [⟨1, 10, 5⟩, ⟨1, 20, 3⟩, ⟨2, 20, 4⟩] 10 none).expansion +
        (mkRow [⟨1, 10, 5⟩, ⟨1, 20, 3⟩, ⟨2, 20, 4⟩] 10 none).retained
      = (mkRow [⟨1, 10, 5⟩, ⟨1, 20, 3⟩, ⟨2, 20, 4⟩] 10 none).total ∧
     (mkRow [⟨1, 10, 5⟩, ⟨1, 20, 3⟩, ⟨2, 20, 4⟩] 10 none).total
      = ((usersOf [⟨1, 10, 5⟩, ⟨1, 20, 3⟩, ⟨2, 20, 4⟩]).map
          (fun u => revenueOf [⟨1, 10, 5⟩, ⟨1, 20, 3⟩, ⟨2, 20, 4⟩] u
            (mkRow [⟨1, 10, 5⟩, ⟨1, 20, 3⟩, ⟨2, 20, 4⟩] 10
              none).period_rep)).sum) :=
  ⟨by decide, fit_reconciliation _ _ (by decide)⟩

/-! ### Structure of the fitted row sequence (for C9) -/

theorem div_den_zero (a b : ℚ) (hb : b = 0) :
    (FVal.div (FVal.num a) (FVal.num b)).replaceInf = FVal.nan := by
  subst hb
  show (FVal.div (FVal.num a) (FVal.num 0)).replaceInf = FVal.nan
  simp only [FVal.div]
  rw [if_pos trivial]
  split_ifs <;> rfl

theorem shiftDiv_den_zero (a b : ℚ) (hb : b = 0) :
    (shiftDiv a (some b)).replaceInf = FVal.nan :=
  div_den_zero a b hb

theorem mkRow_new_rate (events : List Ev) (c : Nat) (pc : Option Nat) :
    (mkRow events c pc).new_rate
      = (shiftDiv (newSum events c) (pc.map (newSum events))).replaceInf := rfl

theorem mkRow_res_rate (events : List Ev) (c : Nat) (pc : Option Nat) :
    (mkRow events c pc).resurrected_rate
      = (shiftDiv (resSum events c) (pc.map (resSum events))).replaceInf := rfl

theorem mkRow_exp_rate (events : List Ev) (c : Nat) (pc : Option Nat) :
    (mkRow events c pc).expansion_rate
      = (shiftDiv (expSum events c) (pc.map (expSum events))).replaceInf := rfl

theorem mkRow_con_rate (events : List Ev) (c : Nat) (pc : Option Nat) :
    (mkRow events c pc).contraction_rate
      = (shiftDiv (conSum events c) (pc.map (conSum events))).replaceInf := rfl

theorem mkRow_ret_rate (events : List Ev) (c : Nat) (pc : Option Nat) :
    (mkRow events c pc).retained_rate
      = (shiftDiv (retSum events c) (pc.map (retSum events))).replaceInf := rfl

theorem mkRow_chu_rate (events : List Ev) (c : Nat) (pc : Option Nat) :
    (mkRow events c pc).churned_rate
      = (shiftDiv (chuSum events c) (pc.map (chuSum events))).replaceInf := rfl

theorem mkRow_gross (events : List Ev) (c : Nat) (pc : Option Nat) :
    (mkRow events c pc).gross_retention
      = (shiftDiv (retSum events c) (pc.map (totSum events))).replaceInf := rfl

theorem mkRow_netchurn (events : List Ev) (c : Nat) (pc : Option Nat) :
    (mkRow events c pc).net_churn
      = (shiftDiv (-chuSum events c - conSum events c - resSum events c
          - expSum events c) (pc.map (totSum events))).replaceInf := rfl

theorem mkRow_quick (events : List Ev) (c : Nat) (pc : Option Nat) :
    (mkRow events c pc).quick_ratio
      = (FVal.div (FVal.num (newSum events c + resSum events c + expSum events c))
          (FVal.num (-chuSum events c - conSum events c))).replaceInf := rfl

theorem fit_first_shape (events : List Ev) (r : GARow)
    (h : (GrowthAccounting.fit events)[0]? = some r) :
    ∃ c, (cohortsList events)[0]? = some c ∧ r = mkRow events c none := by
  unfold GrowthAccounting.fit at h
  rw [List.getElem?_map] at h
  rcases hz : ((cohortsList events).zip
      (none :: (cohortsList events).map some))[0]? with _ | cp
  · rw [hz] at h
    simp at h
  · rw [hz] at h
    simp only [Option.map_some'] at h
    rw [List.getElem?_zip_eq_some] at hz
    refine ⟨cp.1, hz.1, ?_⟩
    have h2 : cp.2 = none := by
      have := hz.2
      rw [List.getElem?_cons_zero] at this
      exact (Option.some_inj.mp this).symm
    rw [← Option.some_inj.mp h, h2]

theorem fit_succ_shape (events : List Ev) (i : Nat) (r : GARow)
    (h : (GrowthAccounting.fit events)[i + 1]? = some r) :
    ∃ c c', (cohortsList events)[i]? = some c ∧
      (cohortsList events)[i + 1]? = some c' ∧
      r = mkRow events c' (some c) := by
  unfold GrowthAccounting.fit at h
  rw [List.getElem?_map] at h
  rcases hz : ((cohortsList events).zip
      (none :: (cohortsList events).map some))[i + 1]? with _ | cp
  · rw [hz] at h
    simp at h
  · rw [hz] at h
    simp only [Option.map_some'] at h
    rw [List.getElem?_zip_eq_some] at hz
    obtain ⟨hz1, hz2⟩ := hz
    rw [List.getElem?_cons_succ, List.getElem?_map] at hz2
    rcases hci : (cohortsList events)[i]? with _ | c
    · rw [hci] at hz2
      simp at hz2
    · rw [hci] at hz2
      simp only [Option.map_some'] at hz2
      refine ⟨c, cp.1, rfl, hz1, ?_⟩
      rw [← Option.some_inj.mp h, ← Option.some_inj.mp hz2]

theorem fit_mem_shape (events : List Ev) (r : GARow)
    (h : r ∈ GrowthAccounting.fit events) :
    ∃ c pc, c ∈ cohortsList events ∧ r = mkRow events c pc := by
  unfold GrowthAccounting.fit at h
  obtain ⟨cp, hcp, hmk⟩ := List.mem_map.mp h
  obtain ⟨c', pc⟩ := cp
  exact ⟨c', pc, (List.of_mem_zip hcp).1, hmk.symm⟩

theorem sortedHead_le (l : List Nat) (hs : List.Sorted (· ≤ ·) l) (c : Nat)
    (hc : l[0]? = some c) : ∀ x ∈ l, c ≤ x := by
  match l with
  | [] => simp at hc
  | a :: t =>
    rw [List.getElem?_cons_zero] at hc
    obtain rfl : a = c := Option.some_inj.mp hc
    intro x hx
    rcases List.mem_cons.mp hx with rfl | hx
    · exact le_refl x
    · exact (List.sorted_cons.mp hs).1 x hx

/-- The first `dfgrowth` index value is the overall minimum period. -/
theorem minCohort_le_periods (events : List Ev) (c : Nat)
    (hc : (cohortsList events)[0]? = some c) :
    ∀ p ∈ periodsOf events, c ≤ p := by
  intro p hp
  rw [mem_periodsOf, List.mem_map] at hp
  obtain ⟨e, he, hep⟩ := hp
  have hmemf : e ∈ events.filter (fun e' => e'.uid = e.uid) :=
    List.mem_filter.mpr ⟨he, by simp⟩
  have hne : (events.filter (fun e' => e'.uid = e.uid)).map Ev.period ≠ [] := by
    intro hempty
    rw [List.map_eq_nil_iff] at hempty
    rw [hempty] at hmemf
    exact absurd hmemf (List.not_mem_nil e)
  have h1 : cohortOf events e.uid ≤ p :=
    (cohortOf_spec events e.uid hne).2 p (List.mem_map.mpr ⟨e, hmemf, hep⟩)
  have h2 : cohortOf events e.uid ∈ cohortsList events := by
    unfold cohortsList
    rw [mem_sortNat, List.mem_dedup, List.mem_map]
    exact ⟨e, he, rfl⟩
  have h3 : c ≤ cohortOf events e.uid :=
    sortedHead_le (cohortsList events) (sortNat_sorted _) c hc _ h2
  omega

/-- A non-first row of an entity's dense series has a strictly earlier,
globally observed predecessor period. -/
theorem gridRow_prev_lt (events : List Ev) (r : URow)
    (hr : r ∈ gridRows events) (q : Nat) (hq : r.prev = some q) :
    q ∈ periodsOf events ∧ q < r.period := by
  unfold gridRows at hr
  rw [List.mem_flatMap] at hr
  obtain ⟨u, hu, hru⟩ := hr
  rw [List.mem_map] at hru
  obtain ⟨pp, hpp, hmk⟩ := hru
  unfold withPrev at hpp
  rw [List.mem_iff_getElem?] at hpp
  obtain ⟨i, hi⟩ := hpp
  rw [List.getElem?_zip_eq_some] at hi
  obtain ⟨hp1, hp2⟩ := hi
  subst hmk
  simp only at hq
  match i, hp2 with
  | 0, hp2 =>
    rw [List.getElem?_cons_zero] at hp2
    rw [hq] at hp2
    simp at hp2
  | j + 1, hp2 =>
    rw [List.getElem?_cons_succ, List.getElem?_map] at hp2
    rcases hqq : (entityPeriods events u)[j]? with _ | qq
    · rw [hqq] at hp2
      simp at hp2
    · rw [hqq] at hp2
      simp only [Option.map_some'] at hp2
      rw [hq] at hp2
      obtain rfl : qq = q := Option.some_inj.mp (Option.some_inj.mp hp2)
      obtain ⟨hjlt, hjval⟩ := List.getElem?_eq_some_iff.mp hqq
      obtain ⟨hilt, hival⟩ := List.getElem?_eq_some_iff.mp hp1
      have hsorted : List.Sorted (· ≤ ·) (entityPeriods events u) :=
        (sortNat_sorted _).filter _
      have hle : (entityPeriods events u)[j] ≤ (entityPeriods events u)[j + 1] :=
        List.pairwise_iff_getElem.mp hsorted j (j + 1) hjlt hilt (by omega)
      have hne : (entityPeriods events u)[j] ≠ (entityPeriods events u)[j + 1] := by
        intro heq
        have := ((entityPeriods_nodup events u).getElem_inj_iff).mp heq
        omega
      have hmem : qq ∈ entityPeriods events u := by
        rw [← hjval]
        exact List.getElem_mem hjlt
      refine ⟨(List.mem_filter.mp hmem).1, ?_⟩
      simp only
      rw [← hjval, ← hival]
      omega

theorem super_first_ne (events : List Ev) (r : URow) (hprev : r.prev = none) :
    superOf events r ≠ 1 ∧ superOf events r ≠ -1 := by
  unfold superOf changeOf
  rw [hprev]
  rcases uniques01 events r.uid r.period with h | h <;> rw [h] <;>
    exact ⟨by norm_num, by norm_num⟩

/-- At the first index value (the overall minimum period), no row is in the
`contraction` or `churned` class, so both sums are zero-filled to 0. -/
theorem firstRow_no_churn (events : List Ev) (c : Nat)
    (hc : (cohortsList events)[0]? = some c) :
    conSum events c = 0 ∧ chuSum events c = 0 := by
  have hmin := minCohort_le_periods events c hc
  have hkey : ∀ r ∈ gridRows events, r.period = c → r.prev = none := by
    intro r hr hp
    rcases hq : r.prev with _ | q
    · rfl
    · exfalso
      obtain ⟨hqper, hqlt⟩ := gridRow_prev_lt events r hr q hq
      have := hmin q hqper
      omega
  constructor
  · unfold conSum
    have hf : (gridRows events).filter (fun r => superOf events r = 1 ∧
        revstatusOf events r = -1 ∧ r.period = c) = [] := by
      rw [List.filter_eq_nil_iff]
      intro r hr hcond
      simp only [decide_eq_true_eq] at hcond
      exact (super_first_ne events r (hkey r hr hcond.2.2)).1 hcond.1
    rw [hf]
    rfl
  · unfold chuSum
    have hf : (gridRows events).filter (fun r => superOf events r = -1 ∧
        r.period = c) = [] := by
      rw [List.filter_eq_nil_iff]
      intro r hr hcond
      simp only [decide_eq_true_eq] at hcond
      exact (super_first_ne events r (hkey r hr hcond.2)).2 hcond.1
    rw [hf]
    rfl

theorem fit_idx_shape (events : List Ev) (i : Nat) (p : GARow)
    (h : (GrowthAccounting.fit events)[i]? = some p) :
    ∃ c pc, (cohortsList events)[i]? = some c ∧ p = mkRow events c pc := by
  unfold GrowthAccounting.fit at h
  rw [List.getElem?_map] at h
  rcases hz : ((cohortsList events).zip
      (none :: (cohortsList events).map some))[i]? with _ | cp
  · rw [hz] at h
    simp at h
  · rw [hz] at h
    simp only [Option.map_some'] at h
    rw [List.getElem?_zip_eq_some] at hz
    exact ⟨cp.1, cp.2, hz.1, (Option.some_inj.mp h).symm⟩

theorem sumFilter_zero (l : List URow) (p : URow → Bool) (f : URow → ℚ)
    (h : ∀ u ∈ l, ¬ p u = true) : ((l.filter p).map f).sum = 0 := by
  rw [List.filter_eq_nil_iff.mpr h]
  rfl

/-- C9: in `GrowthAccounting.fit`, every rate or ratio whose denominator is
zero or whose previous row is missing comes out as the explicit `NaN`
marker, never `0` and never an error, while the category sums themselves are
zero-filled.  Concretely: (1) in the first output row every `shift(1)`
denominator is missing, so all six category rates, `growth_rate`,
`gross_retention` and `net_churn` are `NaN`, and `quick_ratio` is `NaN` too
because the first index value carries no churn or contraction; (2) in any
later row, a previous-row category sum (or total) equal to `0` makes the
corresponding rate (`gross_retention`/`net_churn` for the total) `NaN` via
the `inf → NaN` replacement of line 244; (3) in every row, a zero
`churned + contraction` denominator makes `quick_ratio` `NaN`, while a class
with no member rows in the period yields a category sum of exactly `0`
(line 225 `fillna(0)`), not a missing value. -/
theorem fit_undefined_markers (events : List Ev) :
    (∀ r, (GrowthAccounting.fit events)[0]? = some r →
      r.new_rate = FVal.nan ∧ r.resurrected_rate = FVal.nan ∧
      r.expansion_rate = FVal.nan ∧ r.contraction_rate = FVal.nan ∧
      r.retained_rate = FVal.nan ∧ r.churned_rate = FVal.nan ∧
      r.growth_rate = FVal.nan ∧ r.gross_retention = FVal.nan ∧
      r.net_churn = FVal.nan ∧ r.quick_ratio = FVal.nan) ∧
    (∀ i p r, (GrowthAccounting.fit events)[i]? = some p →
      (GrowthAccounting.fit events)[i + 1]? = some r →
      (p.new = 0 → r.new_rate = FVal.nan) ∧
      (p.resurrected = 0 → r.resurrected_rate = FVal.nan) ∧
      (p.expansion = 0 → r.expansion_rate = FVal.nan) ∧
      (p.contraction = 0 → r.contraction_rate = FVal.nan) ∧
      (p.retained = 0 → r.retained_rate = FVal.nan) ∧
      (p.churned = 0 → r.churned_rate = FVal.nan) ∧
      (p.total = 0 → r.gross_retention = FVal.nan ∧
        r.net_churn = FVal.nan)) ∧
    (∀ r ∈ GrowthAccounting.fit events,
      (r.churned + r.contraction = 0 → r.quick_ratio = FVal.nan) ∧
      ((∀ u ∈ gridRows events,
        ¬(superOf events u = 3 ∧ u.period = r.period_rep)) → r.new = 0) ∧
      ((∀ u ∈ gridRows events,
        ¬(superOf events u = 2 ∧ u.period = r.period_rep)) →
        r.resurrected = 0) ∧
      ((∀ u ∈ gridRows events, ¬(superOf events u = 1 ∧
        revstatusOf events u = 1 ∧ u.period = r.period_rep)) →
        r.expansion = 0) ∧
      ((∀ u ∈ gridRows events, ¬(superOf events u = 1 ∧
        revstatusOf events u = -1 ∧ u.period = r.period_rep)) →
        r.contraction = 0) ∧
      ((∀ u ∈ gridRows events,
        ¬(superOf events u = 1 ∧ u.period = r.period_rep)) →
        r.retained = 0) ∧
      ((∀ u ∈ gridRows events,
        ¬(superOf events u = -1 ∧ u.period = r.period_rep)) →
        r.churned = 0)) := by
  refine ⟨?_, ?_, ?_⟩
  · intro r h
    obtain ⟨c, hc, rfl⟩ := fit_first_shape events r h
    refine ⟨rfl, rfl, rfl, rfl, rfl, rfl, rfl, rfl, rfl, ?_⟩
    rw [mkRow_quick]
    obtain ⟨hco, hch⟩ := firstRow_no_churn events c hc
    exact div_den_zero _ _ (by rw [hch, hco]; norm_num)
  · intro i p r hp hr
    obtain ⟨c, c', hci, hci1, rfl⟩ := fit_succ_shape events i r hr
    obtain ⟨c0, pc0, hc0, rfl⟩ := fit_idx_shape events i p hp
    have hcc : c0 = c := by
      rw [hc0] at hci
      exact Option.some_inj.mp hci
    subst hcc
    refine ⟨?_, ?_, ?_, ?_, ?_, ?_, ?_⟩
    · intro h
      rw [mkRow_new] at h
      rw [mkRow_new_rate]
      simp only [Option.map_some']
      exact shiftDiv_den_zero _ _ h
    · intro h
      rw [mkRow_res] at h
      rw [mkRow_res_rate]
      simp only [Option.map_some']
      exact shiftDiv_den_zero _ _ h
    · intro h
      rw [mkRow_exp] at h
      rw [mkRow_exp_rate]
      simp only [Option.map_some']
      exact shiftDiv_den_zero _ _ h
    · intro h
      rw [mkRow_con] at h
      rw [mkRow_con_rate]
      simp only [Option.map_some']
      exact shiftDiv_den_zero _ _ h
    · intro h
      rw [mkRow_ret] at h
      rw [mkRow_ret_rate]
      simp only [Option.map_some']
      exact shiftDiv_den_zero _ _ h
    · intro h
      rw [mkRow_chu] at h
      rw [mkRow_chu_rate]
      simp only [Option.map_some']
      exact shiftDiv_den_zero _ _ h
    · intro h
      rw [mkRow_total] at h
      constructor
      · rw [mkRow_gross]
        simp only [Option.map_some']
        exact shiftDiv_den_zero _ _ h
      · rw [mkRow_netchurn]
        simp only [Option.map_some']
        exact shiftDiv_den_zero _ _ h
  · intro r hr
    obtain ⟨c, pc, hcmem, rfl⟩ := fit_mem_shape events r hr
    refine ⟨?_, ?_, ?_, ?_, ?_, ?_, ?_⟩
    · intro h
      rw [mkRow_chu, mkRow_con] at h
      rw [mkRow_quick]
      exact div_den_zero _ _ (by linarith)
    · intro h
      rw [mkRow_new]
      unfold newSum
      exact sumFilter_zero _ _ _ (fun u hu => by
        simpa [mkRow_period] using h u hu)
    · intro h
      rw [mkRow_res]
      unfold resSum
      exact sumFilter_zero _ _ _ (fun u hu => by
        simpa [mkRow_period] using h u hu)
    · intro h
      rw [mkRow_exp]
      unfold expSum
      exact sumFilter_zero _ _ _ (fun u hu => by
        simpa [mkRow_period] using h u hu)
    · intro h
      rw [mkRow_con]
      unfold conSum
      exact sumFilter_zero _ _ _ (fun u hu => by
        simpa [mkRow_period] using h u hu)
    · intro h
      rw [mkRow_ret]
      unfold retSum
      exact sumFilter_zero _ _ _ (fun u hu => by
        simpa [mkRow_period] using h u hu)
    · intro h
      rw [mkRow_chu]
      unfold chuSum
      exact sumFilter_zero _ _ _ (fun u hu => by
        simpa [mkRow_period] using h u hu)

/-- Concrete instance of the C9 theorem: on a two-entity dataset the first
output row exists and its `new_rate` is the explicit `NaN` marker. -/
theorem fit_undefined_markers_witness :
    (GrowthAccounting.fit [Ev.mk 1 10 5, Ev.mk 1 20 3, Ev.mk 2 20 4])[0]?
      = some (mkRow [Ev.mk 1 10 5, Ev.mk 1 20 3, Ev.mk 2 20 4] 10 none)
    ∧ (mkRow [Ev.mk 1 10 5, Ev.mk 1 20 3, Ev.mk 2 20 4] 10 none).new_rate
      = FVal.nan :=
  ⟨by decide,
   ((fit_undefined_markers [Ev.mk 1 10 5, Ev.mk 1 20 3, Ev.mk 2 20 4]).1
      (mkRow [Ev.mk 1 10 5, Ev.mk 1 20 3, Ev.mk 2 20 4] 10 none)
      (by decide)).1⟩

/-! ### The `Cohorts` class (`cohorts_pmf.py`) -/

/-- One row of `df_cohorts` right after `fit`: the selected columns
`['cohort', 'period', 'period_num']` of line 427. -/
structure CRow where
  cohort : Nat
  period : Nat
  period_num : Nat
deriving DecidableEq, Repr

/-- The rows of one `groupby('cohort')` group of the grid (lines 419-422):
the distinct observed periods not earlier than the cohort, ascending, with
`period_num` assigned by position (`nums`, line 18: `np.arange(len(data))`). -/
def cohortBlock (events : List Ev) (c : Nat) : List CRow :=
  (((periodsOf events).filter (fun p => c ≤ p)).enum).map
    (fun ip => CRow.mk c ip.2 ip.1)

/-- `Cohorts.fit` lines 419-427: `groupby(['cohort','period']).count()` then
`unstack().fillna(0).stack()` builds the dense product of the distinct
cohorts and the distinct periods, the filter of line 421 keeps the cells
with `cohort <= period`, and `groupby('cohort').apply(nums)` numbers each
cohort's rows `0, 1, 2, ...` in ascending period order. -/
def Cohorts.fitGrid (events : List Ev) : List CRow :=
  (cohortsList events).flatMap (cohortBlock events)

/-- `df.groupby(['cohort','period'])[column_input].sum()` aligned at grid
cell `(c, p)` by the index-aligned assignment of line 175: `some` of the
summed cell values when the cell has at least one event row, and the
missing marker (`NaN`) otherwise — `apply_total` has no `fillna` step. -/
def totalCell (events : List Ev) (c p : Nat) : Option ℚ :=
  let hits := events.filter (fun e => cohortOf events e.uid = c ∧ e.period = p)
  if hits.isEmpty then none else some ((hits.map Ev.qty).sum)

/-- `Cohorts.apply_total` (lines 172-178): attach the `total` value to every
grid row of `df_cohorts`. -/
def Cohorts.apply_total (events : List Ev) : List (CRow × Option ℚ) :=
  (Cohorts.fitGrid events).map
    (fun r => (r, totalCell events r.cohort r.period))

/-- The method names defined on the `Cohorts` class. -/
def Cohorts.methods : List String :=
  ["__init__", "apply_unique_users", "apply_total", "apply_churn_total",
   "apply_churn_unique_users", "apply_accum", "apply_per_user",
   "apply_personalized", "fit", "transform_pd", "transform_np",
   "plot_heatmap", "plot_trends"]

/-- Python attribute lookup `self.name` on a `Cohorts` instance:
`AttributeError` when the class defines no such method. -/
def Cohorts.getMethod (s : String) : Except String String :=
  if s ∈ Cohorts.methods then Except.ok s
  else Except.error "AttributeError"

/-- `Cohorts.apply_churn_unique_users` (lines 214-246) at the level of the
`df_cohorts` column list: with `unique_users` already present the two churn
columns are appended; otherwise line 240 first evaluates the attribute
`self.apply_unique`. -/
def Cohorts.apply_churn_unique_users (columns : List String) :
    Except String (List String) :=
  if "unique_users" ∈ columns then
    Except.ok (columns ++ ["churn_unique", "perc_churn_unique"])
  else
    match Cohorts.getMethod "apply_unique" with
    | Except.error e => Except.error e
    | Except.ok _ =>
        Except.ok (columns ++ ["unique_users", "perc_unique_users",
          "churn_unique", "perc_churn_unique"])

/-- `Cohorts.apply_churn_total` (lines 181-212) at the same level: its
prerequisite branch (line 205) calls `self.apply_total`, which exists. -/
def Cohorts.apply_churn_total (columns : List String) :
    Except String (List String) :=
  if "total" ∈ columns then
    Except.ok (columns ++ ["churn_total", "perc_churn_total"])
  else
    match Cohorts.getMethod "apply_total" with
    | Except.error e => Except.error e
    | Except.ok _ =>
        Except.ok (columns ++ ["total", "perc_total", "churn_total",
          "perc_churn_total"])

/-- C7: the one-level dependency dispatch is broken for
`churn_unique_users`.  The `Cohorts` class defines `apply_unique_users` but
no method `apply_unique`, and line 240 invokes `self.apply_unique(column_id)`,
so on a fitted model whose grid lacks the `unique_users` column the call
raises `AttributeError` instead of computing the prerequisite and the churn
columns; with the prerequisite already present the method works, and the
analogous `churn_total` path does resolve its prerequisite `apply_total`. -/
theorem churn_unique_users_attribute_error :
    "apply_unique" ∉ Cohorts.methods ∧
    "apply_unique_users" ∈ Cohorts.methods ∧
    Cohorts.apply_churn_unique_users ["cohort", "period", "period_num"]
      = Except.error "AttributeError" ∧
    Cohorts.apply_churn_unique_users ["cohort", "period", "period_num",
        "unique_users", "perc_unique_users"]
      = Except.ok ["cohort", "period", "period_num", "unique_users",
          "perc_unique_users", "churn_unique", "perc_churn_unique"] ∧
    Cohorts.apply_churn_total ["cohort", "period", "period_num"]
      = Except.ok ["cohort", "period", "period_num", "total", "perc_total",
          "churn_total", "perc_churn_total"] :=
  ⟨by decide, by decide, rfl, rfl, rfl⟩

/-- C10 counterexample: entity 1 is active in periods 10 and 30 and entity 2
in period 20 only, so the grid cells (10, 20), (20, 30) have no event rows;
`apply_total` leaves their `total` missing (`NaN`) instead of `0`. -/
theorem apply_total_nan_counterexample :
    Cohorts.apply_total [Ev.mk 1 10 1, Ev.mk 1 30 1, Ev.mk 2 20 1]
      = [(CRow.mk 10 10 0, some 1), (CRow.mk 10 20 1, none),
         (CRow.mk 10 30 2, some 1), (CRow.mk 20 20 0, some 1),
         (CRow.mk 20 30 1, none)] := by decide

/-- C10 amended: after `apply_total` every grid row keeps its key and a cell
with at least one event row holds `some` of its summed values, but a cell
with no event rows holds the missing marker (`NaN`): the `total` column is
not zero-filled, since `apply_total` has no `fillna` step. -/
theorem apply_total_empty_cells_missing (events : List Ev) :
    ∀ r ∈ Cohorts.fitGrid events,
      (events.filter (fun x => cohortOf events x.uid = r.cohort ∧
          x.period = r.period) = [] →
        (r, (none : Option ℚ)) ∈ Cohorts.apply_total events) ∧
      (events.filter (fun x => cohortOf events x.uid = r.cohort ∧
          x.period = r.period) ≠ [] →
        (r, some (((events.filter (fun x => cohortOf events x.uid = r.cohort ∧
            x.period = r.period)).map Ev.qty).sum)) ∈
          Cohorts.apply_total events) := by
  intro r hr
  constructor
  · intro h
    refine List.mem_map.mpr ⟨r, hr, ?_⟩
    unfold totalCell
    rw [h]
    rfl
  · intro h
    refine List.mem_map.mpr ⟨r, hr, ?_⟩
    unfold totalCell
    rw [if_neg (fun hh => h (List.isEmpty_iff.mp hh))]

/-- Concrete instance of the amended C10 theorem: on the counterexample
dataset the empty grid cell (10, 20) carries the missing marker. -/
theorem apply_total_empty_cells_missing_witness :
    CRow.mk 10 20 1 ∈
      Cohorts.fitGrid [Ev.mk 1 10 1, Ev.mk 1 30 1, Ev.mk 2 20 1] ∧
    (CRow.mk 10 20 1, (none : Option ℚ)) ∈
      Cohorts.apply_total [Ev.mk 1 10 1, Ev.mk 1 30 1, Ev.mk 2 20 1] :=
  ⟨by decide,
   (apply_total_empty_cells_missing [Ev.mk 1 10 1, Ev.mk 1 30 1, Ev.mk 2 20 1]
      (CRow.mk 10 20 1) (by decide)).1 (by decide)⟩

theorem cohortsList_nodup (events : List Ev) : (cohortsList events).Nodup :=
  ((List.perm_insertionSort (· ≤ ·) _).nodup_iff).mpr (List.nodup_dedup _)

theorem cohortBlock_cohort (events : List Ev) (c : Nat) (r : CRow)
    (hr : r ∈ cohortBlock events c) : r.cohort = c := by
  obtain ⟨ip, _, hmk⟩ := List.mem_map.mp hr
  rw [← hmk]

theorem flatMapBlocks (l : List Nat) (f : Nat → List CRow)
    (hf : ∀ c r, r ∈ f c → r.cohort = c) (hl : l.Nodup) (c : Nat) :
    (l.flatMap f).filter (fun r => r.cohort = c)
      = if c ∈ l then f c else [] := by
  induction l with
  | nil => simp
  | cons a t ih =>
    rw [List.flatMap_cons, List.filter_append]
    have hnd := List.nodup_cons.mp hl
    rcases eq_or_ne c a with rfl | hne
    · rw [if_pos (List.mem_cons_self _ _)]
      have h1 : (f c).filter (fun r => decide (r.cohort = c)) = f c :=
        List.filter_eq_self.mpr (fun r hr => by simp [hf c r hr])
      have h2 : (t.flatMap f).filter (fun r => decide (r.cohort = c)) = [] := by
        rw [ih hnd.2]
        exact if_neg hnd.1
      rw [h1, h2, List.append_nil]
    · have h1 : (f a).filter (fun r => decide (r.cohort = c)) = [] :=
        List.filter_eq_nil_iff.mpr (fun r hr => by
          simp [hf a r hr, hne.symm])
      rw [h1, List.nil_append, ih hnd.2]
      by_cases hct : c ∈ t
      · rw [if_pos hct, if_pos (List.mem_cons_of_mem _ hct)]
      · rw [if_neg hct, if_neg (by simp [hne, hct])]

theorem fitGrid_mem_elim (events : List Ev) (c p n : Nat)
    (h : CRow.mk c p n ∈ Cohorts.fitGrid events) :
    c ∈ cohortsList events ∧
    ((periodsOf events).filter (fun q => c ≤ q))[n]? = some p := by
  unfold Cohorts.fitGrid at h
  obtain ⟨c1, hc1, hmem⟩ := List.mem_flatMap.mp h
  obtain ⟨ip, hip, hmk⟩ := List.mem_map.mp hmem
  obtain ⟨h1, h2, h3⟩ : c = c1 ∧ p = ip.2 ∧ n = ip.1 := by
    have e1 : (CRow.mk c1 ip.2 ip.1).cohort = (CRow.mk c p n).cohort := by
      rw [hmk]
    have e2 : (CRow.mk c1 ip.2 ip.1).period = (CRow.mk c p n).period := by
      rw [hmk]
    have e3 : (CRow.mk c1 ip.2 ip.1).period_num
        = (CRow.mk c p n).period_num := by
      rw [hmk]
    exact ⟨e1.symm, e2.symm, e3.symm⟩
  subst h1
  refine ⟨hc1, ?_⟩
  rw [h2, h3]
  have : (ip.1, ip.2) ∈ ((periodsOf events).filter (fun q => c ≤ q)).enum := by
    rw [show (ip.1, ip.2) = ip from rfl]
    exact hip
  exact (List.mk_mem_enum_iff_getElem?).mp this

/-- C3: the grid of `Cohorts.fit` has a row for the pair `(c, p)` exactly
when `c` is an observed cohort, `p` an observed period, and `c ≤ p`; the
row of a pair is unique; and within each cohort the rows run in strictly
ascending period order carrying `period_num = 0, 1, 2, ...` consecutively
(so the single-last-period cohort gets exactly one row with
`period_num = 0`). -/
theorem fitGrid_spec (events : List Ev) :
    (∀ c p, (∃ n, CRow.mk c p n ∈ Cohorts.fitGrid events) ↔
      (c ∈ cohortsList events ∧ p ∈ periodsOf events ∧ c ≤ p)) ∧
    (∀ c p n m, CRow.mk c p n ∈ Cohorts.fitGrid events →
      CRow.mk c p m ∈ Cohorts.fitGrid events → n = m) ∧
    (∀ c, ((Cohorts.fitGrid events).filter (fun r => r.cohort = c)).map
        CRow.period_num
        = List.range (((Cohorts.fitGrid events).filter
            (fun r => r.cohort = c)).length) ∧
      List.Sorted (· < ·) (((Cohorts.fitGrid events).filter
        (fun r => r.cohort = c)).map CRow.period)) := by
  refine ⟨?_, ?_, ?_⟩
  · intro c p
    constructor
    · rintro ⟨n, hn⟩
      obtain ⟨hc, hget⟩ := fitGrid_mem_elim events c p n hn
      obtain ⟨hlt, hval⟩ := List.getElem?_eq_some_iff.mp hget
      have hpm : p ∈ (periodsOf events).filter (fun q => c ≤ q) := by
        rw [← hval]
        exact List.getElem_mem hlt
      obtain ⟨hp1, hp2⟩ := List.mem_filter.mp hpm
      exact ⟨hc, hp1, by simpa using hp2⟩
    · rintro ⟨hc, hp, hle⟩
      have hpm : p ∈ (periodsOf events).filter (fun q => c ≤ q) :=
        List.mem_filter.mpr ⟨hp, by simpa using hle⟩
      obtain ⟨n, hget⟩ := List.mem_iff_getElem?.mp hpm
      refine ⟨n, ?_⟩
      unfold Cohorts.fitGrid
      refine List.mem_flatMap.mpr ⟨c, hc, ?_⟩
      exact List.mem_map.mpr ⟨(n, p),
        (List.mk_mem_enum_iff_getElem?).mpr hget, rfl⟩
  · intro c p n m hn hm
    have h1 := (fitGrid_mem_elim events c p n hn).2
    have h2 := (fitGrid_mem_elim events c p m hm).2
    obtain ⟨hlt1, hval1⟩ := List.getElem?_eq_some_iff.mp h1
    obtain ⟨hlt2, hval2⟩ := List.getElem?_eq_some_iff.mp h2
    have hnd : ((periodsOf events).filter (fun q => c ≤ q)).Nodup :=
      (periodsOf_nodup events).filter _
    exact (hnd.getElem_inj_iff).mp (by rw [hval1, hval2])
  · intro c
    have hfe : (Cohorts.fitGrid events).filter (fun r => r.cohort = c)
        = if c ∈ cohortsList events then cohortBlock events c else [] :=
      flatMapBlocks (cohortsList events) (cohortBlock events)
        (cohortBlock_cohort events) (cohortsList_nodup events) c
    by_cases hc : c ∈ cohortsList events
    · rw [if_pos hc] at hfe
      rw [hfe]
      constructor
      · unfold cohortBlock
        rw [List.map_map]
        have hcomp : (CRow.period_num ∘ fun ip : Nat × Nat =>
            CRow.mk c ip.2 ip.1) = Prod.fst := rfl
        rw [hcomp, List.enum_map_fst, List.length_map, List.enum_length]
      · unfold cohortBlock
        rw [List.map_map]
        have hcomp : (CRow.period ∘ fun ip : Nat × Nat =>
            CRow.mk c ip.2 ip.1) = Prod.snd := rfl
        rw [hcomp, List.enum_map_snd]
        exact List.Sorted.lt_of_le ((sortNat_sorted _).filter _)
          ((periodsOf_nodup events).filter _)
    · rw [if_neg hc] at hfe
      rw [hfe]
      exact ⟨rfl, List.sorted_nil⟩

/-- Concrete instance of the C3 theorem: entity 2 is observed only in the
dataset's last period 20, and the grid indeed has a row for the pair
`(20, 20)`. -/
theorem fitGrid_spec_witness :
    (20 ∈ cohortsList [Ev.mk 1 10 1, Ev.mk 1 20 1, Ev.mk 2 20 1] ∧
     20 ∈ periodsOf [Ev.mk 1 10 1, Ev.mk 1 20 1, Ev.mk 2 20 1] ∧
     20 ≤ 20) ∧
    (∃ n, CRow.mk 20 20 n ∈
      Cohorts.fitGrid [Ev.mk 1 10 1, Ev.mk 1 20 1, Ev.mk 2 20 1]) :=
  ⟨by decide,
   ((fitGrid_spec [Ev.mk 1 10 1, Ev.mk 1 20 1, Ev.mk 2 20 1]).1 20 20).mpr
     (by decide)⟩
